import Mathlib

/-!
Shallow embedding of the CHIP-8 virtual machine from `src/cpu.rs`
(struct `Cpu`, struct `Registers`, struct `Opcode` and the opcode
handlers), together with theorems settling the frozen claims about it.

Machine integers are modelled as `Nat` with an explicit `% 2 ^ w`
exactly where the source wraps (`wrapping_add`, `overflowing_add`,
shifts on `u8`/`u16`).  A Rust operation that can abort (array index
out of bounds, stack underflow, unknown opcode) is modelled as an
`Option`-valued function returning `none` on the aborting input.
The random byte consumed by the `Cxkk` handler is passed in as an
explicit `rand` argument.
-/

namespace Chip8

/-- Complete state of the machine: the register file of `struct Registers`
    inlined with the fields of `struct Cpu` (memory, display, key state,
    wait latch, dirty flag and cycle counter). -/
structure Cpu where
  v : Fin 16 → Nat
  i : Nat
  delayTimer : Nat
  soundTimer : Nat
  pc : Nat
  sp : Nat
  stack : Fin 16 → Nat
  memory : Fin 4096 → Nat
  display : Fin 32 → Fin 64 → Bool
  keyState : Fin 16 → Bool
  waiting : Option (Fin 16)
  hasDispUpdate : Bool
  cycleCount : Nat
deriving DecidableEq

/-- Read `memory[a]`; `none` models the out-of-bounds abort of a Rust
    array index. -/
def memRead (m : Fin 4096 → Nat) (a : Nat) : Option Nat :=
  if h : a < 4096 then some (m ⟨a, h⟩) else none

/-- Write `memory[a] := val`; `none` models the out-of-bounds abort. -/
def memWrite (m : Fin 4096 → Nat) (a : Nat) (val : Nat) : Option (Fin 4096 → Nat) :=
  if h : a < 4096 then some (Function.update m ⟨a, h⟩ val) else none

/-- Decoded opcode fields, as in `struct Opcode`. -/
structure Opcode where
  a : Nat
  kk : Nat
  n : Nat
  nnn : Nat
  x : Fin 16
  y : Fin 16

/-- `Opcode::from_op`: break a 16-bit word into its fields. -/
def Opcode.from_op (op : Nat) : Opcode where
  a := (op >>> 12) &&& 0xf
  kk := op &&& 0xff
  n := op &&& 0xf
  nnn := op &&& 0xfff
  x := ⟨(op >>> 8) &&& 0xf, Nat.lt_succ_of_le Nat.and_le_right⟩
  y := ⟨(op >>> 4) &&& 0xf, Nat.lt_succ_of_le Nat.and_le_right⟩

/-- `Cpu::cls` (00E0): clear the display and set the dirty flag. -/
def cls (c : Cpu) : Cpu :=
  { c with display := fun _ _ => false, hasDispUpdate := true }

/-- `Cpu::ret` (00EE): pop the stack; aborts when `sp == 0` and on an
    out-of-range stack index. -/
def ret (c : Cpu) : Option Cpu :=
  if c.sp = 0 then none
  else if h : c.sp < 16 then
    some { c with pc := c.stack ⟨c.sp, h⟩, sp := c.sp - 1 }
  else none

/-- `Cpu::sys` (0nnn): legacy no-op. -/
def sys (_nnn : Nat) (c : Cpu) : Cpu := c

/-- `Cpu::jp` (1nnn): jump. -/
def jp (nnn : Nat) (c : Cpu) : Cpu := { c with pc := nnn }

/-- `Cpu::call` (2nnn): increment `sp` (an `u8`), push the current `pc`
    and jump; aborts when the incremented `sp` indexes past the
    16-entry stack. -/
def call (nnn : Nat) (c : Cpu) : Option Cpu :=
  let sp' := (c.sp + 1) % 256
  if h : sp' < 16 then
    some { c with sp := sp', stack := Function.update c.stack ⟨sp', h⟩ c.pc, pc := nnn }
  else none

/-- `Cpu::sec` (3xkk): skip if `V[x] == kk`. -/
def sec (x : Fin 16) (kk : Nat) (c : Cpu) : Cpu :=
  if c.v x = kk then { c with pc := (c.pc + 2) % 65536 } else c

/-- `Cpu::snec` (4xkk): skip if `V[x] != kk`. -/
def snec (x : Fin 16) (kk : Nat) (c : Cpu) : Cpu :=
  if c.v x ≠ kk then { c with pc := (c.pc + 2) % 65536 } else c

/-- `Cpu::se` (5xy0): skip if `V[x] == V[y]`. -/
def se (x y : Fin 16) (c : Cpu) : Cpu :=
  if c.v x = c.v y then { c with pc := (c.pc + 2) % 65536 } else c

/-- `Cpu::ldc` (6xkk): `V[x] := kk`. -/
def ldc (x : Fin 16) (kk : Nat) (c : Cpu) : Cpu :=
  { c with v := Function.update c.v x kk }

/-- `Cpu::addc` (7xkk): `V[x] := V[x].wrapping_add(kk)`. -/
def addc (x : Fin 16) (kk : Nat) (c : Cpu) : Cpu :=
  { c with v := Function.update c.v x ((c.v x + kk) % 256) }

/-- `Cpu::ld` (8xy0): `V[x] := V[y]`. -/
def ld (x y : Fin 16) (c : Cpu) : Cpu :=
  { c with v := Function.update c.v x (c.v y) }

/-- `Cpu::or` (8xy1): `V[x] |= V[y]`. -/
def orOp (x y : Fin 16) (c : Cpu) : Cpu :=
  { c with v := Function.update c.v x (c.v x ||| c.v y) }

/-- `Cpu::and` (8xy2): `V[x] &= V[y]`. -/
def andOp (x y : Fin 16) (c : Cpu) : Cpu :=
  { c with v := Function.update c.v x (c.v x &&& c.v y) }

/-- `Cpu::xor` (8xy3): `V[x] ^= V[y]`. -/
def xorOp (x y : Fin 16) (c : Cpu) : Cpu :=
  { c with v := Function.update c.v x (c.v x ^^^ c.v y) }

/-- `Cpu::add` (8xy4): `overflowing_add` on `u8`, result written to
    `V[x]` first, the carry to `VF` second. -/
def add (x y : Fin 16) (c : Cpu) : Cpu :=
  let val := (c.v x + c.v y) % 256
  let carry := 256 ≤ c.v x + c.v y
  let c1 := { c with v := Function.update c.v x val }
  { c1 with v := Function.update c1.v 15 (if carry then 1 else 0) }

/-- `Cpu::sub` (8xy5): `overflowing_sub` on `u8`, result first, then
    `VF := !borrow`. -/
def sub (x y : Fin 16) (c : Cpu) : Cpu :=
  let val := if c.v y ≤ c.v x then c.v x - c.v y else c.v x + 256 - c.v y
  let borrow := c.v x < c.v y
  let c1 := { c with v := Function.update c.v x val }
  { c1 with v := Function.update c1.v 15 (if borrow then 0 else 1) }

/-- `Cpu::shr` (8xy6): `VF := V[x] & 1` is written first, then `V[x]`
    (possibly `VF` itself) is shifted right. -/
def shr (x : Fin 16) (c : Cpu) : Cpu :=
  let c1 := { c with v := Function.update c.v 15 (c.v x &&& 1) }
  { c1 with v := Function.update c1.v x (c1.v x >>> 1) }

/-- `Cpu::subn` (8xy7): `V[x] := V[y] - V[x]` with `VF := !borrow`
    written second. -/
def subn (x y : Fin 16) (c : Cpu) : Cpu :=
  let val := if c.v x ≤ c.v y then c.v y - c.v x else c.v y + 256 - c.v x
  let borrow := c.v y < c.v x
  let c1 := { c with v := Function.update c.v x val }
  { c1 with v := Function.update c1.v 15 (if borrow then 0 else 1) }

/-- `Cpu::shl` (8xyE): `VF := (V[x] & 0x80) >> 7` is written first,
    then `V[x]` (possibly `VF` itself) is shifted left on `u8`. -/
def shl (x : Fin 16) (c : Cpu) : Cpu :=
  let c1 := { c with v := Function.update c.v 15 ((c.v x &&& 0x80) >>> 7) }
  { c1 with v := Function.update c1.v x ((c1.v x <<< 1) % 256) }

/-- `Cpu::sne` (9xy0): skip if `V[x] != V[y]`. -/
def sne (x y : Fin 16) (c : Cpu) : Cpu :=
  if c.v x ≠ c.v y then { c with pc := (c.pc + 2) % 65536 } else c

/-- `Cpu::ldi` (Annn): `I := nnn`. -/
def ldi (nnn : Nat) (c : Cpu) : Cpu := { c with i := nnn }

/-- `Cpu::jp0` (Bnnn): `PC := nnn + V[0]` on `u16`. -/
def jp0 (nnn : Nat) (c : Cpu) : Cpu :=
  { c with pc := (nnn + c.v 0) % 65536 }

/-- `Cpu::rnd` (Cxkk): `V[x] := random_byte & kk`; the random byte is
    the explicit `rand` argument reduced to `u8`. -/
def rnd (rand : Nat) (x : Fin 16) (kk : Nat) (c : Cpu) : Cpu :=
  { c with v := Function.update c.v x ((rand % 256) &&& kk) }

/-- Toggle one display pixel, as `display[r][cl] ^= true` does. -/
def togglePixel (d : Fin 32 → Fin 64 → Bool) (r : Fin 32) (cl : Fin 64) :
    Fin 32 → Fin 64 → Bool :=
  Function.update d r (Function.update (d r) cl (!(d r cl)))

/-- Column index `(vx + j) % C8_WIDTH` of a sprite pixel. -/
def colOf (vx j : Nat) : Fin 64 := ⟨(vx + j) % 64, Nat.mod_lt _ (by norm_num)⟩

/-- Row index `(vy + i) % C8_HEIGHT` of a sprite row. -/
def rowOf (vy i : Nat) : Fin 32 := ⟨(vy + i) % 32, Nat.mod_lt _ (by norm_num)⟩

/-- Body of the inner `for j in 0..8` loop of `Cpu::drw` for a single
    column index `j`: reads the current `V[x]` for the column offset,
    records a collision into `VF` and XORs the pixel. -/
def drwPix (xr : Fin 16) (iOff : Fin 32) (sprite : Nat) (j : Nat) (c : Cpu) : Cpu :=
  let jOff : Fin 64 := colOf (c.v xr) j
  let pixel := (sprite >>> (7 - j)) &&& 1
  if pixel = 1 then
    let c1 := if c.display iOff jOff then { c with v := Function.update c.v 15 1 } else c
    { c1 with display := togglePixel c1.display iOff jOff }
  else c

/-- Inner loop of `Cpu::drw`: `rem` remaining columns starting at
    column index `j` (invoked with `rem = 8`, `j = 0`). -/
def drwRowAux (xr : Fin 16) (iOff : Fin 32) (sprite : Nat) : Nat → Nat → Cpu → Cpu
  | 0, _, c => c
  | rem + 1, j, c => drwRowAux xr iOff sprite rem (j + 1) (drwPix xr iOff sprite j c)

/-- Outer loop of `Cpu::drw`: `rem` remaining sprite rows starting at
    row index `i`; each row re-reads `V[y]` for the row offset and
    fetches the sprite byte at `I + i` (aborting out of bounds). -/
def drwMainAux (xr yr : Fin 16) : Nat → Nat → Cpu → Option Cpu
  | 0, _, c => some c
  | rem + 1, i, c =>
    let iOff : Fin 32 := rowOf (c.v yr) i
    match memRead c.memory (c.i + i) with
    | none => none
    | some sprite => drwMainAux xr yr rem (i + 1) (drwRowAux xr iOff sprite 8 0 c)

/-- `Cpu::drw` (Dxyn): `VF := 0`, blit `n` sprite rows, set the dirty
    flag. -/
def drw (xr yr : Fin 16) (n : Nat) (c : Cpu) : Option Cpu :=
  (drwMainAux xr yr n 0 { c with v := Function.update c.v 15 0 }).map
    fun c2 => { c2 with hasDispUpdate := true }

/-- `Cpu::skp` (Ex9E): skip when `key_state[V[x]]` is pressed; the
    index is not masked, so `V[x] >= 16` aborts. -/
def skp (x : Fin 16) (c : Cpu) : Option Cpu :=
  if h : c.v x < 16 then
    some (if c.keyState ⟨c.v x, h⟩ then { c with pc := (c.pc + 2) % 65536 } else c)
  else none

/-- `Cpu::sknp` (ExA1): skip when `key_state[V[x]]` is not pressed;
    `V[x] >= 16` aborts. -/
def sknp (x : Fin 16) (c : Cpu) : Option Cpu :=
  if h : c.v x < 16 then
    some (if c.keyState ⟨c.v x, h⟩ then c else { c with pc := (c.pc + 2) % 65536 })
  else none

/-- `Cpu::ldxdt` (Fx07): `V[x] := DT`. -/
def ldxdt (x : Fin 16) (c : Cpu) : Cpu :=
  { c with v := Function.update c.v x c.delayTimer }

/-- `Cpu::ldxk` (Fx0A): arm the wait latch with the register index. -/
def ldxk (x : Fin 16) (c : Cpu) : Cpu := { c with waiting := some x }

/-- `Cpu::lddtx` (Fx15): `DT := V[x]`. -/
def lddtx (x : Fin 16) (c : Cpu) : Cpu := { c with delayTimer := c.v x }

/-- `Cpu::ldstx` (Fx18): `ST := V[x]`. -/
def ldstx (x : Fin 16) (c : Cpu) : Cpu := { c with soundTimer := c.v x }

/-- `Cpu::addi` (Fx1E): `overflowing_add` on the 16-bit `I`; the wrapped
    sum goes to `I` and the 16-bit carry to `VF`. -/
def addi (x : Fin 16) (c : Cpu) : Cpu :=
  let val := (c.i + c.v x) % 65536
  let carry := 65536 ≤ c.i + c.v x
  { c with i := val, v := Function.update c.v 15 (if carry then 1 else 0) }

/-- `Cpu::ldf` (Fx29): `I := V[x] as u16 * 5` (no nibble mask). -/
def ldf (x : Fin 16) (c : Cpu) : Cpu :=
  { c with i := (c.v x * 5) % 65536 }

/-- `Cpu::ldb` (Fx33): write the BCD digits of `V[x]` to
    `memory[I .. I+2]`, aborting on an out-of-range address. -/
def ldb (x : Fin 16) (c : Cpu) : Option Cpu := do
  let val := c.v x
  let addr := c.i
  let m1 ← memWrite c.memory addr (val / 100)
  let m2 ← memWrite m1 (addr + 1) (val / 10 % 10)
  let m3 ← memWrite m2 (addr + 2) (val % 10)
  pure { c with memory := m3 }

/-- Read `V[k]` through a runtime-checked index, as Rust's `v[i]`. -/
def vRead (c : Cpu) (k : Nat) : Option Nat :=
  if h : k < 16 then some (c.v ⟨k, h⟩) else none

/-- Write `V[k]` through a runtime-checked index. -/
def vWrite (c : Cpu) (k : Nat) (val : Nat) : Option Cpu :=
  if h : k < 16 then some { c with v := Function.update c.v ⟨k, h⟩ val } else none

/-- Loop of `Cpu::ldix` (Fx55): `rem` remaining registers starting at
    index `k`, storing `V[k]` to `memory[I + k]`. -/
def ldixAux (iReg : Nat) : Nat → Nat → Cpu → Option Cpu
  | 0, _, c => some c
  | rem + 1, k, c => do
    let val ← vRead c k
    let m ← memWrite c.memory (iReg + k) val
    ldixAux iReg rem (k + 1) { c with memory := m }

/-- `Cpu::ldix` (Fx55): store `V[0] ..= V[x]` at `I`; `I` unchanged. -/
def ldix (x : Fin 16) (c : Cpu) : Option Cpu :=
  ldixAux c.i (x.val + 1) 0 c

/-- Loop of `Cpu::ldxi` (Fx65): `rem` remaining registers starting at
    index `k`, loading `V[k]` from `memory[I + k]`. -/
def ldxiAux (iReg : Nat) : Nat → Nat → Cpu → Option Cpu
  | 0, _, c => some c
  | rem + 1, k, c => do
    let b ← memRead c.memory (iReg + k)
    let c' ← vWrite c k b
    ldxiAux iReg rem (k + 1) c'

/-- `Cpu::ldxi` (Fx65): load `V[0] ..= V[x]` from `I`; `I` unchanged. -/
def ldxi (x : Fin 16) (c : Cpu) : Option Cpu :=
  ldxiAux c.i (x.val + 1) 0 c

/-- Dispatch of `Cpu::process_opcode` on the decoded fields, mirroring
    the ordered `match` arms of the source; the final `none` is the
    unknown-opcode abort. -/
def dispatch (rand : Nat) (op : Opcode) (c : Cpu) : Option Cpu :=
  if op.a = 0x0 ∧ op.x.val = 0x0 ∧ op.y.val = 0xE ∧ op.n = 0x0 then some (cls c)
  else if op.a = 0x0 ∧ op.x.val = 0x0 ∧ op.y.val = 0xE ∧ op.n = 0xE then ret c
  else if op.a = 0x0 then some (sys op.nnn c)
  else if op.a = 0x1 then some (jp op.nnn c)
  else if op.a = 0x2 then call op.nnn c
  else if op.a = 0x3 then some (sec op.x op.kk c)
  else if op.a = 0x4 then some (snec op.x op.kk c)
  else if op.a = 0x5 ∧ op.n = 0x0 then some (se op.x op.y c)
  else if op.a = 0x6 then some (ldc op.x op.kk c)
  else if op.a = 0x7 then some (addc op.x op.kk c)
  else if op.a = 0x8 ∧ op.n = 0x0 then some (ld op.x op.y c)
  else if op.a = 0x8 ∧ op.n = 0x1 then some (orOp op.x op.y c)
  else if op.a = 0x8 ∧ op.n = 0x2 then some (andOp op.x op.y c)
  else if op.a = 0x8 ∧ op.n = 0x3 then some (xorOp op.x op.y c)
  else if op.a = 0x8 ∧ op.n = 0x4 then some (add op.x op.y c)
  else if op.a = 0x8 ∧ op.n = 0x5 then some (sub op.x op.y c)
  else if op.a = 0x8 ∧ op.n = 0x6 then some (shr op.x c)
  else if op.a = 0x8 ∧ op.n = 0x7 then some (subn op.x op.y c)
  else if op.a = 0x8 ∧ op.n = 0xE then some (shl op.x c)
  else if op.a = 0x9 ∧ op.n = 0x0 then some (sne op.x op.y c)
  else if op.a = 0xA then some (ldi op.nnn c)
  else if op.a = 0xB then some (jp0 op.nnn c)
  else if op.a = 0xC then some (rnd rand op.x op.kk c)
  else if op.a = 0xD then drw op.x op.y op.n c
  else if op.a = 0xE ∧ op.y.val = 0x9 ∧ op.n = 0xE then skp op.x c
  else if op.a = 0xE ∧ op.y.val = 0xA ∧ op.n = 0x1 then sknp op.x c
  else if op.a = 0xF ∧ op.y.val = 0x0 ∧ op.n = 0x7 then some (ldxdt op.x c)
  else if op.a = 0xF ∧ op.y.val = 0x0 ∧ op.n = 0xA then some (ldxk op.x c)
  else if op.a = 0xF ∧ op.y.val = 0x1 ∧ op.n = 0x5 then some (lddtx op.x c)
  else if op.a = 0xF ∧ op.y.val = 0x1 ∧ op.n = 0x8 then some (ldstx op.x c)
  else if op.a = 0xF ∧ op.y.val = 0x1 ∧ op.n = 0xE then some (addi op.x c)
  else if op.a = 0xF ∧ op.y.val = 0x2 ∧ op.n = 0x9 then some (ldf op.x c)
  else if op.a = 0xF ∧ op.y.val = 0x3 ∧ op.n = 0x3 then ldb op.x c
  else if op.a = 0xF ∧ op.y.val = 0x5 ∧ op.n = 0x5 then ldix op.x c
  else if op.a = 0xF ∧ op.y.val = 0x6 ∧ op.n = 0x5 then ldxi op.x c
  else none

/-- `Cpu::process_opcode`: decode the word, then dispatch. -/
def processOpcode (rand : Nat) (opcode : Nat) (c : Cpu) : Option Cpu :=
  dispatch rand (Opcode.from_op opcode) c

/-- Fetch-and-execute phase of `Cpu::tick`: when the wait latch is
    empty, clear the dirty flag, fetch big-endian at `pc`, advance `pc`
    by two and dispatch; otherwise leave the state untouched. -/
def tickExec (rand : Nat) (c : Cpu) : Option Cpu :=
  if c.waiting = none then
    match memRead c.memory c.pc, memRead c.memory (c.pc + 1) with
    | some hi, some lo =>
      processOpcode rand ((hi <<< 8) ||| lo)
        { c with hasDispUpdate := false, pc := (c.pc + 2) % 65536 }
    | _, _ => none
  else some c

/-- Timer phase of `Cpu::tick`: when `cycle_count % 8 == 0` (checked
    before the counter is incremented), decrement each non-zero timer. -/
def tickTimers (c : Cpu) : Cpu :=
  if c.cycleCount % 8 = 0 then
    { c with
      delayTimer := if 0 < c.delayTimer then c.delayTimer - 1 else c.delayTimer,
      soundTimer := if 0 < c.soundTimer then c.soundTimer - 1 else c.soundTimer }
  else c

/-- `Cpu::tick`: execute (unless waiting), run the timer gate, then
    increment the cycle counter. -/
def tick (rand : Nat) (c : Cpu) : Option Cpu :=
  (tickExec rand c).map fun c1 =>
    let c2 := tickTimers c1
    { c2 with cycleCount := c2.cycleCount + 1 }

/-- `Cpu::set_key_pressed`: mark the key pressed and, when the wait
    latch holds a register index, store the key code there (as `u8`)
    and clear the latch; an out-of-range key index aborts. -/
def set_key_pressed (key : Nat) (c : Cpu) : Option Cpu :=
  if h : key < 16 then
    let c1 := { c with keyState := Function.update c.keyState ⟨key, h⟩ true }
    match c1.waiting with
    | some x => some { c1 with v := Function.update c1.v x (key % 256), waiting := none }
    | none => some c1
  else none

/-- `Cpu::set_key_released`: mark the key released; nothing else. -/
def set_key_released (key : Nat) (c : Cpu) : Option Cpu :=
  if h : key < 16 then
    some { c with keyState := Function.update c.keyState ⟨key, h⟩ false }
  else none

/-- Fill memory from `addr` with the given bytes, stopping at the end
    of memory: the in-memory content of `Cpu::load_rom`, whose single
    `read` call fills `memory[512..]` with at most `4096 - 512` bytes
    of the ROM and ignores the rest. -/
def writeBytes : List Nat → Nat → (Fin 4096 → Nat) → (Fin 4096 → Nat)
  | [], _, m => m
  | b :: rest, addr, m =>
    if h : addr < 4096 then writeBytes rest (addr + 1) (Function.update m ⟨addr, h⟩ b)
    else m

/-- `Cpu::load_rom` on the ROM's byte content: write the bytes into
    memory starting at 0x200; bytes past the end of memory are
    silently dropped and no error is signalled. -/
def load_rom (bytes : List Nat) (c : Cpu) : Cpu :=
  { c with memory := writeBytes bytes 512 c.memory }

/-- Freshly initialized machine state (used as a base for concrete
    test states; the font table is irrelevant to the claims and left
    zero here). -/
def cpu0 : Cpu where
  v := fun _ => 0
  i := 0
  delayTimer := 0
  soundTimer := 0
  pc := 512
  sp := 0
  stack := fun _ => 0
  memory := fun _ => 0
  display := fun _ _ => false
  keyState := fun _ => false
  waiting := none
  hasDispUpdate := false
  cycleCount := 0

/-! ## C1: Fx1E (ADD I, Vx) -/

/-- State with `I = 0x0FFF` and `V[0] = 1`: the sum crosses 0x0FFF but
    not 0xFFFF. -/
def cexC1 : Cpu := { cpu0 with i := 0xFFF, v := Function.update cpu0.v 0 1 }

/-- C1 (amended): `Fx1E` sets `I := (I + V[x]) mod 2^16` and sets `VF`
    to 1 exactly when the sum overflows past 0xFFFF (the 16-bit carry),
    not past 0x0FFF. -/
theorem addi_spec (x : Fin 16) (c : Cpu) :
    (addi x c).i = (c.i + c.v x) % 65536 ∧
    (addi x c).v 15 = if c.i + c.v x < 65536 then 0 else 1 := by
  refine ⟨rfl, ?_⟩
  simp only [addi, Function.update_same]
  split_ifs <;> omega

/-- C1 counterexample: at `I = 0x0FFF`, `V[0] = 1` the sum `0x1000`
    exceeds 0x0FFF, yet the code leaves `VF = 0`, contradicting the
    claim that `VF` is set to 1 on overflow past 0x0FFF. -/
theorem addi_cex :
    (addi 0 cexC1).i = 0x1000 ∧ 0xFFF < (addi 0 cexC1).i ∧ (addi 0 cexC1).v 15 = 0 := by
  decide

/-! ## C3: Fx29 (LD F, Vx) -/

/-- State with `V[0] = 0x10`, one past the largest font digit. -/
def cexC3 : Cpu := { cpu0 with v := Function.update cpu0.v 0 16 }

/-- C3 (amended): `Fx29` sets `I := V[x] * 5` as a 16-bit value, with
    no nibble mask applied to `V[x]`, and changes nothing else. -/
theorem ldf_spec (x : Fin 16) (c : Cpu) :
    (ldf x c).i = (c.v x * 5) % 65536 ∧
    (ldf x c).v = c.v ∧ (ldf x c).pc = c.pc ∧ (ldf x c).sp = c.sp ∧
    (ldf x c).stack = c.stack ∧ (ldf x c).memory = c.memory ∧
    (ldf x c).display = c.display ∧ (ldf x c).keyState = c.keyState ∧
    (ldf x c).waiting = c.waiting ∧ (ldf x c).hasDispUpdate = c.hasDispUpdate ∧
    (ldf x c).delayTimer = c.delayTimer ∧ (ldf x c).soundTimer = c.soundTimer ∧
    (ldf x c).cycleCount = c.cycleCount :=
  ⟨rfl, rfl, rfl, rfl, rfl, rfl, rfl, rfl, rfl, rfl, rfl, rfl, rfl⟩

/-- C3 counterexample: with `V[0] = 0x10` the code sets `I = 80`,
    whereas the claimed `(V[x] & 0xF) * 5` is 0. -/
theorem ldf_cex : (ldf 0 cexC3).i = 80 ∧ (cexC3.v 0 &&& 0xF) * 5 = 0 := by
  decide

/-! ## C8: 8xy6 (SHR) -/

/-- State with `V[F] = 2`. -/
def cexC8 : Cpu := { cpu0 with v := Function.update cpu0.v 15 2 }

/-- State with every register equal to 7. -/
def wCpu8 : Cpu := { cpu0 with v := fun _ => 7 }

/-- C8 (amended): for `x ≠ 0xF`, `8xy6` gives `V[x] := V[x] >> 1` and
    `VF := V[x] & 1`; for `x = 0xF` the flag write happens first and is
    then shifted, so `VF` ends at 0. -/
theorem shr_spec (x : Fin 16) (c : Cpu) :
    (x ≠ 15 → (shr x c).v x = c.v x >>> 1 ∧ (shr x c).v 15 = c.v x &&& 1) ∧
    (x = 15 → (shr x c).v 15 = 0) := by
  constructor
  · intro hx
    constructor
    · show (Function.update (Function.update c.v 15 (c.v x &&& 1)) x
          ((Function.update c.v 15 (c.v x &&& 1)) x >>> 1)) x = c.v x >>> 1
      rw [Function.update_same, Function.update_noteq hx]
    · show (Function.update (Function.update c.v 15 (c.v x &&& 1)) x
          ((Function.update c.v 15 (c.v x &&& 1)) x >>> 1)) 15 = c.v x &&& 1
      rw [Function.update_noteq (Ne.symm hx), Function.update_same]
  · intro hx
    subst hx
    show (Function.update (Function.update c.v 15 (c.v 15 &&& 1)) 15
        ((Function.update c.v 15 (c.v 15 &&& 1)) 15 >>> 1)) 15 = 0
    rw [Function.update_same, Function.update_same]
    have h : c.v 15 &&& 1 ≤ 1 := Nat.and_le_right
    rw [Nat.shiftRight_eq_div_pow]
    omega

/-- C8 witness: at `x = 2` with all registers 7, the shift and the flag
    behave as amended; at `x = 15` the flag ends 0. -/
theorem shr_witness :
    (shr 2 wCpu8).v 2 = 3 ∧ (shr 2 wCpu8).v 15 = 1 ∧ (shr 15 wCpu8).v 15 = 0 := by
  refine ⟨?_, ?_, ?_⟩
  · rw [((shr_spec 2 wCpu8).1 (by decide)).1]
    decide
  · rw [((shr_spec 2 wCpu8).1 (by decide)).2]
    decide
  · exact (shr_spec 15 wCpu8).2 rfl

/-- C8 counterexample: with `V[F] = 2` and `x = 0xF`, the claim demands
    `V[F]_new = V[F]_old >> 1 = 1`, but the code leaves `V[F] = 0`. -/
theorem shr_cex : (shr 15 cexC8).v 15 ≠ cexC8.v 15 >>> 1 := by
  decide

/-! ## C10: 8xyE (SHL) with x = 0xF -/

/-- State with `V[F] = 0x90` (bit 7 set). -/
def wCpu10 : Cpu := { cpu0 with v := Function.update cpu0.v 15 0x90 }

/-- C10: executing `8FyE` first overwrites `VF` with bit 7 of the old
    `VF` and then shifts that register left, so the final `VF` is
    `2 * (bit 7 of the old VF)`; in particular it can end at 2. -/
theorem shl_vf_spec :
    (∀ c : Cpu, (shl 15 c).v 15 = 2 * ((c.v 15 &&& 0x80) >>> 7)) ∧
    (shl 15 wCpu10).v 15 = 2 := by
  constructor
  · intro c
    show (Function.update (Function.update c.v 15 ((c.v 15 &&& 128) >>> 7)) 15
        (((Function.update c.v 15 ((c.v 15 &&& 128) >>> 7)) 15 <<< 1) % 256)) 15 =
      2 * ((c.v 15 &&& 128) >>> 7)
    rw [Function.update_same, Function.update_same]
    have hb : c.v 15 &&& 128 ≤ 128 := Nat.and_le_right
    have hs : (c.v 15 &&& 128) >>> 7 ≤ 1 := by
      rw [Nat.shiftRight_eq_div_pow]
      omega
    rw [Nat.shiftLeft_eq]
    omega
  · decide

/-! ## C4: Ex9E (SKP) and ExA1 (SKNP) -/

/-- State with `V[0] = 16` and every key pressed. -/
def cexC4 : Cpu := { cpu0 with v := Function.update cpu0.v 0 16, keyState := fun _ => true }

/-- State with `V[0] = 3` and key 3 pressed. -/
def wCpu4 : Cpu :=
  { cpu0 with v := Function.update cpu0.v 0 3,
              keyState := Function.update cpu0.keyState 3 true }

/-- C4 (amended): for `V[x] < 16`, SKP adds 2 to PC exactly when
    `keypad[V[x]]` is pressed and SKNP exactly when it is not; the
    index is not masked, so for `V[x] ≥ 16` both instructions abort on
    an out-of-bounds keypad index. -/
theorem skp_sknp_spec (x : Fin 16) (c : Cpu) :
    (∀ h : c.v x < 16,
      skp x c =
        some (if c.keyState ⟨c.v x, h⟩ then { c with pc := (c.pc + 2) % 65536 } else c) ∧
      sknp x c =
        some (if c.keyState ⟨c.v x, h⟩ then c else { c with pc := (c.pc + 2) % 65536 })) ∧
    (16 ≤ c.v x → skp x c = none ∧ sknp x c = none) := by
  constructor
  · intro h
    constructor
    · unfold skp
      rw [dif_pos h]
    · unfold sknp
      rw [dif_pos h]
  · intro h
    constructor
    · unfold skp
      rw [dif_neg (by omega)]
    · unfold sknp
      rw [dif_neg (by omega)]

/-- C4 witness: with `V[0] = 3` and key 3 pressed, SKP and SKNP behave
    as amended. -/
theorem skp_sknp_witness :
    skp 0 wCpu4 =
      some (if wCpu4.keyState ⟨wCpu4.v 0, by decide⟩ then
        { wCpu4 with pc := (wCpu4.pc + 2) % 65536 } else wCpu4) ∧
    sknp 0 wCpu4 =
      some (if wCpu4.keyState ⟨wCpu4.v 0, by decide⟩ then wCpu4 else
        { wCpu4 with pc := (wCpu4.pc + 2) % 65536 }) :=
  (skp_sknp_spec 0 wCpu4).1 (by decide)

/-- C4 counterexample: with `V[0] = 16` and every key pressed the claim
    demands `PC += 2` (since `keypad[16 & 0xF]` is true), but the code
    aborts on the unmasked index instead. -/
theorem skp_cex :
    skp 0 cexC4 = none ∧ cexC4.keyState ⟨cexC4.v 0 &&& 0xF, by decide⟩ = true :=
  ⟨rfl, rfl⟩

/-! ## C6: wait latch -/

/-- Waiting state: latch armed for `V[0]`, timers 5 and 1, counter 0. -/
def wCpu6 : Cpu :=
  { cpu0 with waiting := some 0, delayTimer := 5, soundTimer := 1, cycleCount := 0 }

/-- C6: while the wait latch holds `x`, `set_key_pressed k` stores `k`
    into `V[x]` and clears the latch; `set_key_released` never touches
    the latch or the registers; and `tick` leaves everything except the
    cycle counter and the timers unchanged. -/
theorem wait_latch_spec (x : Fin 16) (key rand : Nat) (c : Cpu)
    (hw : c.waiting = some x) (hk : key < 16) :
    set_key_pressed key c =
      some { c with keyState := Function.update c.keyState ⟨key, hk⟩ true,
                    v := Function.update c.v x (key % 256),
                    waiting := none } ∧
    (∀ c2, set_key_released key c = some c2 → c2.waiting = c.waiting ∧ c2.v = c.v) ∧
    tick rand c =
      some { c with
        delayTimer :=
          if c.cycleCount % 8 = 0 ∧ 0 < c.delayTimer then c.delayTimer - 1 else c.delayTimer,
        soundTimer :=
          if c.cycleCount % 8 = 0 ∧ 0 < c.soundTimer then c.soundTimer - 1 else c.soundTimer,
        cycleCount := c.cycleCount + 1 } := by
  refine ⟨?_, ?_, ?_⟩
  · unfold set_key_pressed
    rw [dif_pos hk]
    show (match c.waiting with
      | some x => _
      | none => _) = _
    rw [hw]
  · intro c2 hrel
    unfold set_key_released at hrel
    rw [dif_pos hk] at hrel
    injection hrel with hrel
    subst hrel
    exact ⟨rfl, rfl⟩
  · unfold tick tickExec
    rw [hw]
    simp only [reduceCtorEq, if_false, Option.map_some']
    unfold tickTimers
    by_cases hc : c.cycleCount % 8 = 0
    · rw [if_pos hc]
      simp [hc]
      exact hw
    · rw [if_neg hc]
      simp [hc]
      exact hw

/-- C6 witness: the wait-latch contract evaluated on the concrete
    waiting state `wCpu6` with key 7. -/
theorem wait_latch_witness :
    set_key_pressed 7 wCpu6 =
      some { wCpu6 with keyState := Function.update wCpu6.keyState ⟨7, by decide⟩ true,
                        v := Function.update wCpu6.v 0 (7 % 256),
                        waiting := none } ∧
    (∀ c2, set_key_released 7 wCpu6 = some c2 → c2.waiting = wCpu6.waiting ∧ c2.v = wCpu6.v) ∧
    tick 0 wCpu6 =
      some { wCpu6 with
        delayTimer :=
          if wCpu6.cycleCount % 8 = 0 ∧ 0 < wCpu6.delayTimer then wCpu6.delayTimer - 1
          else wCpu6.delayTimer,
        soundTimer :=
          if wCpu6.cycleCount % 8 = 0 ∧ 0 < wCpu6.soundTimer then wCpu6.soundTimer - 1
          else wCpu6.soundTimer,
        cycleCount := wCpu6.cycleCount + 1 } :=
  wait_latch_spec 0 7 0 wCpu6 rfl (by decide)

/-! ## Cycle-counter preservation through the instruction phase -/

theorem drwPix_cycleCount (xr : Fin 16) (iOff : Fin 32) (sprite j : Nat) (c : Cpu) :
    (drwPix xr iOff sprite j c).cycleCount = c.cycleCount := by
  simp only [drwPix]
  split_ifs <;> rfl

theorem drwRowAux_cycleCount (xr : Fin 16) (iOff : Fin 32) (sprite : Nat) :
    ∀ (rem j : Nat) (c : Cpu), (drwRowAux xr iOff sprite rem j c).cycleCount = c.cycleCount
  | 0, _, _ => rfl
  | rem + 1, j, c => by
    rw [drwRowAux, drwRowAux_cycleCount xr iOff sprite rem (j + 1) _,
      drwPix_cycleCount]

theorem drwMainAux_cycleCount (xr yr : Fin 16) :
    ∀ (rem i : Nat) (c c' : Cpu), drwMainAux xr yr rem i c = some c' →
      c'.cycleCount = c.cycleCount
  | 0, _, _, _, h => by
    injection h with h
    subst h
    rfl
  | rem + 1, i, c, c', h => by
    rw [drwMainAux] at h
    rcases hm : memRead c.memory (c.i + i) with _ | sprite <;> rw [hm] at h
    · cases h
    · rw [drwMainAux_cycleCount xr yr rem (i + 1) _ c' h, drwRowAux_cycleCount]

theorem drw_cycleCount (xr yr : Fin 16) (n : Nat) (c c' : Cpu)
    (h : drw xr yr n c = some c') : c'.cycleCount = c.cycleCount := by
  unfold drw at h
  rcases hm : drwMainAux xr yr n 0 { c with v := Function.update c.v 15 0 } with _ | c2 <;>
    rw [hm] at h
  · cases h
  · injection h with h
    subst h
    exact drwMainAux_cycleCount xr yr n 0 { c with v := Function.update c.v 15 0 } c2 hm

theorem ret_cycleCount (c c' : Cpu) (h : ret c = some c') :
    c'.cycleCount = c.cycleCount := by
  unfold ret at h
  split_ifs at h
  · injection h with h
    subst h
    rfl

theorem call_cycleCount (nnn : Nat) (c c' : Cpu) (h : call nnn c = some c') :
    c'.cycleCount = c.cycleCount := by
  simp only [call] at h
  split_ifs at h
  injection h with h
  subst h
  rfl

theorem skp_cycleCount (x : Fin 16) (c c' : Cpu) (h : skp x c = some c') :
    c'.cycleCount = c.cycleCount := by
  unfold skp at h
  split_ifs at h <;> (injection h with h; subst h; rfl)

theorem sknp_cycleCount (x : Fin 16) (c c' : Cpu) (h : sknp x c = some c') :
    c'.cycleCount = c.cycleCount := by
  unfold sknp at h
  split_ifs at h <;> (injection h with h; subst h; rfl)

theorem ldb_cycleCount (x : Fin 16) (c c' : Cpu) (h : ldb x c = some c') :
    c'.cycleCount = c.cycleCount := by
  simp only [ldb] at h
  rcases h1 : memWrite c.memory c.i (c.v x / 100) with _ | m1 <;> rw [h1] at h <;>
    simp only [Option.bind_eq_bind, Option.none_bind, Option.some_bind, reduceCtorEq] at h
  rcases h2 : memWrite m1 (c.i + 1) (c.v x / 10 % 10) with _ | m2 <;> rw [h2] at h <;>
    simp only [Option.bind_eq_bind, Option.none_bind, Option.some_bind, reduceCtorEq] at h
  rcases h3 : memWrite m2 (c.i + 2) (c.v x % 10) with _ | m3 <;> rw [h3] at h <;>
    simp only [Option.bind_eq_bind, Option.none_bind, Option.some_bind, reduceCtorEq, Option.pure_def, Option.some.injEq] at h
  subst h
  rfl

theorem ldixAux_cycleCount (iReg : Nat) :
    ∀ (rem k : Nat) (c c' : Cpu), ldixAux iReg rem k c = some c' →
      c'.cycleCount = c.cycleCount
  | 0, _, _, _, h => by
    injection h with h
    subst h
    rfl
  | rem + 1, k, c, c', h => by
    rw [ldixAux] at h
    rcases h1 : vRead c k with _ | val <;> rw [h1] at h <;>
      simp only [Option.bind_eq_bind, Option.none_bind, Option.some_bind, reduceCtorEq] at h
    rcases h2 : memWrite c.memory (iReg + k) val with _ | m <;> rw [h2] at h <;>
      simp only [Option.bind_eq_bind, Option.none_bind, Option.some_bind, reduceCtorEq] at h
    exact ldixAux_cycleCount iReg rem (k + 1) { c with memory := m } c' h

theorem ldxiAux_cycleCount (iReg : Nat) :
    ∀ (rem k : Nat) (c c' : Cpu), ldxiAux iReg rem k c = some c' →
      c'.cycleCount = c.cycleCount
  | 0, _, _, _, h => by
    injection h with h
    subst h
    rfl
  | rem + 1, k, c, c', h => by
    rw [ldxiAux] at h
    rcases h1 : memRead c.memory (iReg + k) with _ | b <;> rw [h1] at h <;>
      simp only [Option.bind_eq_bind, Option.none_bind, Option.some_bind, reduceCtorEq] at h
    rcases h2 : vWrite c k b with _ | c1 <;> rw [h2] at h <;>
      simp only [Option.bind_eq_bind, Option.none_bind, Option.some_bind, reduceCtorEq] at h
    have h2' : c1.cycleCount = c.cycleCount := by
      unfold vWrite at h2
      split_ifs at h2
      injection h2 with h2
      subst h2
      rfl
    rw [ldxiAux_cycleCount iReg rem (k + 1) c1 c' h, h2']

theorem dispatch_cycleCount (rand : Nat) (op : Opcode) (c c' : Cpu)
    (h : dispatch rand op c = some c') : c'.cycleCount = c.cycleCount := by
  unfold dispatch at h
  by_cases hc0 : op.a = 0x0 ∧ op.x.val = 0x0 ∧ op.y.val = 0xE ∧ op.n = 0x0
  · rw [if_pos hc0] at h
    injection h with h
    subst h
    rfl
  rw [if_neg hc0] at h
  by_cases hc1 : op.a = 0x0 ∧ op.x.val = 0x0 ∧ op.y.val = 0xE ∧ op.n = 0xE
  · rw [if_pos hc1] at h
    exact ret_cycleCount c c' h
  rw [if_neg hc1] at h
  by_cases hc2 : op.a = 0x0
  · rw [if_pos hc2] at h
    injection h with h
    subst h
    rfl
  rw [if_neg hc2] at h
  by_cases hc3 : op.a = 0x1
  · rw [if_pos hc3] at h
    injection h with h
    subst h
    rfl
  rw [if_neg hc3] at h
  by_cases hc4 : op.a = 0x2
  · rw [if_pos hc4] at h
    exact call_cycleCount _ c c' h
  rw [if_neg hc4] at h
  by_cases hc5 : op.a = 0x3
  · rw [if_pos hc5] at h
    injection h with h
    subst h
    unfold sec
    split_ifs <;> rfl
  rw [if_neg hc5] at h
  by_cases hc6 : op.a = 0x4
  · rw [if_pos hc6] at h
    injection h with h
    subst h
    unfold snec
    split_ifs <;> rfl
  rw [if_neg hc6] at h
  by_cases hc7 : op.a = 0x5 ∧ op.n = 0x0
  · rw [if_pos hc7] at h
    injection h with h
    subst h
    unfold se
    split_ifs <;> rfl
  rw [if_neg hc7] at h
  by_cases hc8 : op.a = 0x6
  · rw [if_pos hc8] at h
    injection h with h
    subst h
    rfl
  rw [if_neg hc8] at h
  by_cases hc9 : op.a = 0x7
  · rw [if_pos hc9] at h
    injection h with h
    subst h
    rfl
  rw [if_neg hc9] at h
  by_cases hc10 : op.a = 0x8 ∧ op.n = 0x0
  · rw [if_pos hc10] at h
    injection h with h
    subst h
    rfl
  rw [if_neg hc10] at h
  by_cases hc11 : op.a = 0x8 ∧ op.n = 0x1
  · rw [if_pos hc11] at h
    injection h with h
    subst h
    rfl
  rw [if_neg hc11] at h
  by_cases hc12 : op.a = 0x8 ∧ op.n = 0x2
  · rw [if_pos hc12] at h
    injection h with h
    subst h
    rfl
  rw [if_neg hc12] at h
  by_cases hc13 : op.a = 0x8 ∧ op.n = 0x3
  · rw [if_pos hc13] at h
    injection h with h
    subst h
    rfl
  rw [if_neg hc13] at h
  by_cases hc14 : op.a = 0x8 ∧ op.n = 0x4
  · rw [if_pos hc14] at h
    injection h with h
    subst h
    rfl
  rw [if_neg hc14] at h
  by_cases hc15 : op.a = 0x8 ∧ op.n = 0x5
  · rw [if_pos hc15] at h
    injection h with h
    subst h
    rfl
  rw [if_neg hc15] at h
  by_cases hc16 : op.a = 0x8 ∧ op.n = 0x6
  · rw [if_pos hc16] at h
    injection h with h
    subst h
    rfl
  rw [if_neg hc16] at h
  by_cases hc17 : op.a = 0x8 ∧ op.n = 0x7
  · rw [if_pos hc17] at h
    injection h with h
    subst h
    rfl
  rw [if_neg hc17] at h
  by_cases hc18 : op.a = 0x8 ∧ op.n = 0xE
  · rw [if_pos hc18] at h
    injection h with h
    subst h
    rfl
  rw [if_neg hc18] at h
  by_cases hc19 : op.a = 0x9 ∧ op.n = 0x0
  · rw [if_pos hc19] at h
    injection h with h
    subst h
    unfold sne
    split_ifs <;> rfl
  rw [if_neg hc19] at h
  by_cases hc20 : op.a = 0xA
  · rw [if_pos hc20] at h
    injection h with h
    subst h
    rfl
  rw [if_neg hc20] at h
  by_cases hc21 : op.a = 0xB
  · rw [if_pos hc21] at h
    injection h with h
    subst h
    rfl
  rw [if_neg hc21] at h
  by_cases hc22 : op.a = 0xC
  · rw [if_pos hc22] at h
    injection h with h
    subst h
    rfl
  rw [if_neg hc22] at h
  by_cases hc23 : op.a = 0xD
  · rw [if_pos hc23] at h
    exact drw_cycleCount _ _ _ c c' h
  rw [if_neg hc23] at h
  by_cases hc24 : op.a = 0xE ∧ op.y.val = 0x9 ∧ op.n = 0xE
  · rw [if_pos hc24] at h
    exact skp_cycleCount _ c c' h
  rw [if_neg hc24] at h
  by_cases hc25 : op.a = 0xE ∧ op.y.val = 0xA ∧ op.n = 0x1
  · rw [if_pos hc25] at h
    exact sknp_cycleCount _ c c' h
  rw [if_neg hc25] at h
  by_cases hc26 : op.a = 0xF ∧ op.y.val = 0x0 ∧ op.n = 0x7
  · rw [if_pos hc26] at h
    injection h with h
    subst h
    rfl
  rw [if_neg hc26] at h
  by_cases hc27 : op.a = 0xF ∧ op.y.val = 0x0 ∧ op.n = 0xA
  · rw [if_pos hc27] at h
    injection h with h
    subst h
    rfl
  rw [if_neg hc27] at h
  by_cases hc28 : op.a = 0xF ∧ op.y.val = 0x1 ∧ op.n = 0x5
  · rw [if_pos hc28] at h
    injection h with h
    subst h
    rfl
  rw [if_neg hc28] at h
  by_cases hc29 : op.a = 0xF ∧ op.y.val = 0x1 ∧ op.n = 0x8
  · rw [if_pos hc29] at h
    injection h with h
    subst h
    rfl
  rw [if_neg hc29] at h
  by_cases hc30 : op.a = 0xF ∧ op.y.val = 0x1 ∧ op.n = 0xE
  · rw [if_pos hc30] at h
    injection h with h
    subst h
    rfl
  rw [if_neg hc30] at h
  by_cases hc31 : op.a = 0xF ∧ op.y.val = 0x2 ∧ op.n = 0x9
  · rw [if_pos hc31] at h
    injection h with h
    subst h
    rfl
  rw [if_neg hc31] at h
  by_cases hc32 : op.a = 0xF ∧ op.y.val = 0x3 ∧ op.n = 0x3
  · rw [if_pos hc32] at h
    exact ldb_cycleCount _ c c' h
  rw [if_neg hc32] at h
  by_cases hc33 : op.a = 0xF ∧ op.y.val = 0x5 ∧ op.n = 0x5
  · rw [if_pos hc33] at h
    exact ldixAux_cycleCount _ _ _ c c' h
  rw [if_neg hc33] at h
  by_cases hc34 : op.a = 0xF ∧ op.y.val = 0x6 ∧ op.n = 0x5
  · rw [if_pos hc34] at h
    exact ldxiAux_cycleCount _ _ _ c c' h
  rw [if_neg hc34] at h
  exact Option.noConfusion h

theorem processOpcode_cycleCount (rand opcode : Nat) (c c' : Cpu)
    (h : processOpcode rand opcode c = some c') : c'.cycleCount = c.cycleCount :=
  dispatch_cycleCount rand (Opcode.from_op opcode) c c' h

theorem tickExec_cycleCount (rand : Nat) (c c1 : Cpu) (h : tickExec rand c = some c1) :
    c1.cycleCount = c.cycleCount := by
  unfold tickExec at h
  split_ifs at h
  · rcases hhi : memRead c.memory c.pc with _ | hi <;>
      rcases hlo : memRead c.memory (c.pc + 1) with _ | lo <;>
      rw [hhi, hlo] at h <;> try cases h
    exact processOpcode_cycleCount rand ((hi <<< 8) ||| lo)
      { c with hasDispUpdate := false, pc := (c.pc + 2) % 65536 } c1 h
  · injection h with h
    subst h
    rfl

/-! ## C2: tick, cycle counter and timer gate -/

/-- Waiting state with `delayTimer = 1` and `cycleCount = 0`. -/
def cexC2 : Cpu := { cpu0 with waiting := some 0, delayTimer := 1 }

/-- Waiting state with `delayTimer = 3` and `cycleCount = 7`. -/
def wCpu2 : Cpu := { cpu0 with waiting := some 0, delayTimer := 3, cycleCount := 7 }

/-- C2 (amended): every `tick` increments the cycle counter by one, and
    the non-zero timers left by the instruction phase are decremented
    precisely on the ticks whose starting `CycleCount` is divisible by
    8 — equivalently, those whose ending `CycleCount` is congruent to 1
    (not 0) modulo 8.  This holds in both the running and the waiting
    state. -/
theorem tick_spec (rand : Nat) (c c' : Cpu) (h : tick rand c = some c') :
    c'.cycleCount = c.cycleCount + 1 ∧
    (c.cycleCount % 8 = 0 ↔ c'.cycleCount % 8 = 1) ∧
    ∃ c1, tickExec rand c = some c1 ∧
      c'.delayTimer =
        (if c.cycleCount % 8 = 0 ∧ 0 < c1.delayTimer then c1.delayTimer - 1
         else c1.delayTimer) ∧
      c'.soundTimer =
        (if c.cycleCount % 8 = 0 ∧ 0 < c1.soundTimer then c1.soundTimer - 1
         else c1.soundTimer) := by
  unfold tick at h
  rcases he : tickExec rand c with _ | c1 <;> rw [he] at h
  · cases h
  · simp only [Option.map_some', Option.some.injEq] at h
    have hcc := tickExec_cycleCount rand c c1 he
    have htt : (tickTimers c1).cycleCount = c1.cycleCount := by
      unfold tickTimers
      split_ifs <;> rfl
    have hdt : (tickTimers c1).delayTimer =
        if c1.cycleCount % 8 = 0 ∧ 0 < c1.delayTimer then c1.delayTimer - 1
        else c1.delayTimer := by
      by_cases h8 : c1.cycleCount % 8 = 0
      · by_cases hd : 0 < c1.delayTimer
        · rw [if_pos (And.intro h8 hd)]
          unfold tickTimers
          rw [if_pos h8]
          show (if 0 < c1.delayTimer then c1.delayTimer - 1 else c1.delayTimer) =
            c1.delayTimer - 1
          rw [if_pos hd]
        · rw [if_neg (fun hcontra => hd hcontra.2)]
          unfold tickTimers
          rw [if_pos h8]
          show (if 0 < c1.delayTimer then c1.delayTimer - 1 else c1.delayTimer) =
            c1.delayTimer
          rw [if_neg hd]
      · rw [if_neg (fun hcontra => h8 hcontra.1)]
        unfold tickTimers
        rw [if_neg h8]
    have hst : (tickTimers c1).soundTimer =
        if c1.cycleCount % 8 = 0 ∧ 0 < c1.soundTimer then c1.soundTimer - 1
        else c1.soundTimer := by
      by_cases h8 : c1.cycleCount % 8 = 0
      · by_cases hd : 0 < c1.soundTimer
        · rw [if_pos (And.intro h8 hd)]
          unfold tickTimers
          rw [if_pos h8]
          show (if 0 < c1.soundTimer then c1.soundTimer - 1 else c1.soundTimer) =
            c1.soundTimer - 1
          rw [if_pos hd]
        · rw [if_neg (fun hcontra => hd hcontra.2)]
          unfold tickTimers
          rw [if_pos h8]
          show (if 0 < c1.soundTimer then c1.soundTimer - 1 else c1.soundTimer) =
            c1.soundTimer
          rw [if_neg hd]
      · rw [if_neg (fun hcontra => h8 hcontra.1)]
        unfold tickTimers
        rw [if_neg h8]
    subst h
    refine ⟨?_, ?_, c1, rfl, ?_, ?_⟩
    · show (tickTimers c1).cycleCount + 1 = c.cycleCount + 1
      rw [htt, hcc]
    · show c.cycleCount % 8 = 0 ↔ ((tickTimers c1).cycleCount + 1) % 8 = 1
      rw [htt, hcc]
      omega
    · show (tickTimers c1).delayTimer = _
      rw [hdt, hcc]
    · show (tickTimers c1).soundTimer = _
      rw [hst, hcc]

/-- C2 witness: on the waiting state `wCpu2` (starting counter 7, not
    divisible by 8) the counter advances to 8 and the timers pass
    through unchanged. -/
theorem tick_spec_witness :
    ({ wCpu2 with cycleCount := 8 } : Cpu).cycleCount = wCpu2.cycleCount + 1 ∧
    (wCpu2.cycleCount % 8 = 0 ↔ ({ wCpu2 with cycleCount := 8 } : Cpu).cycleCount % 8 = 1) ∧
    ∃ c1, tickExec 0 wCpu2 = some c1 ∧
      ({ wCpu2 with cycleCount := 8 } : Cpu).delayTimer =
        (if wCpu2.cycleCount % 8 = 0 ∧ 0 < c1.delayTimer then c1.delayTimer - 1
         else c1.delayTimer) ∧
      ({ wCpu2 with cycleCount := 8 } : Cpu).soundTimer =
        (if wCpu2.cycleCount % 8 = 0 ∧ 0 < c1.soundTimer then c1.soundTimer - 1
         else c1.soundTimer) :=
  tick_spec 0 wCpu2 { wCpu2 with cycleCount := 8 } rfl

/-- C2 counterexample: from the waiting state `cexC2` (counter 0,
    `DT = 1`), one `tick` decrements the timer although the counter at
    the end of the tick is 1, not divisible by 8 — refuting the claim
    that decrements happen precisely when the ending counter is
    divisible by 8. -/
theorem tick_timer_cex :
    ¬ (∀ c', tick 0 cexC2 = some c' →
        (c'.delayTimer + 1 = cexC2.delayTimer ↔ c'.cycleCount % 8 = 0)) := by
  intro hAll
  have h := hAll { cexC2 with delayTimer := 0, cycleCount := 1 } rfl
  simp [cexC2, cpu0] at h

/-! ## C9: load_rom -/

theorem writeBytes_frame : ∀ (bytes : List Nat) (addr : Nat) (m : Fin 4096 → Nat)
    (p : Fin 4096), (p.val < addr ∨ addr + bytes.length ≤ p.val) →
    writeBytes bytes addr m p = m p
  | [], _, _, _, _ => rfl
  | b :: rest, addr, m, p, hp => by
    unfold writeBytes
    split_ifs with h4
    · have hp' : p.val < addr + 1 ∨ (addr + 1) + rest.length ≤ p.val := by
        rcases hp with h | h
        · exact Or.inl (by omega)
        · right
          simp only [List.length_cons] at h
          omega
      rw [writeBytes_frame rest (addr + 1) _ p hp']
      refine Function.update_noteq ?_ b m
      intro hcontra
      have hpv : p.val = addr := by rw [hcontra]
      rcases hp with h | h
      · omega
      · simp only [List.length_cons] at h
        omega
    · rfl

theorem writeBytes_get : ∀ (bytes : List Nat) (addr : Nat) (m : Fin 4096 → Nat) (j : Nat)
    (hj : j < bytes.length) (h4 : addr + j < 4096),
    writeBytes bytes addr m ⟨addr + j, h4⟩ = bytes.get ⟨j, hj⟩
  | [], _, _, j, hj, _ => absurd hj (by simp)
  | b :: rest, addr, m, 0, hj, h4 => by
    unfold writeBytes
    rw [dif_pos (by omega)]
    have hfr := writeBytes_frame rest (addr + 1)
      (Function.update m ⟨addr, by omega⟩ b) ⟨addr + 0, h4⟩
      (Or.inl (by show addr + 0 < addr + 1; omega))
    refine hfr.trans ?_
    rw [show (⟨addr + 0, h4⟩ : Fin 4096) = ⟨addr, by omega⟩ from
      Fin.ext (show addr + 0 = addr by omega)]
    exact Function.update_same _ _ _
  | b :: rest, addr, m, j + 1, hj, h4 => by
    unfold writeBytes
    rw [dif_pos (by omega)]
    have h4' : (addr + 1) + j < 4096 := by omega
    have hrec := writeBytes_get rest (addr + 1) (Function.update m ⟨addr, by omega⟩ b) j
      (by simp only [List.length_cons] at hj; omega) h4'
    rw [show (⟨addr + (j + 1), h4⟩ : Fin 4096) = ⟨(addr + 1) + j, h4'⟩ from
      Fin.ext (show addr + (j + 1) = (addr + 1) + j by omega)]
    exact hrec

/-- C9 (amended): `load_rom` writes the supplied bytes into memory
    starting at 0x200 as long as they fit (addresses below 0x200 are
    untouched, `pc` and the registers are untouched); bytes past the
    3584-byte capacity are silently dropped and no error of any kind is
    signalled. -/
theorem load_rom_spec (bytes : List Nat) (c : Cpu) :
    (∀ (j : Nat) (hj : j < bytes.length) (h4 : 512 + j < 4096),
      (load_rom bytes c).memory ⟨512 + j, h4⟩ = bytes.get ⟨j, hj⟩) ∧
    (∀ p : Fin 4096, p.val < 512 → (load_rom bytes c).memory p = c.memory p) ∧
    (load_rom bytes c).pc = c.pc ∧ (load_rom bytes c).v = c.v :=
  ⟨fun j hj h4 => writeBytes_get bytes 512 c.memory j hj h4,
   fun p hp => writeBytes_frame bytes 512 c.memory p (Or.inl hp),
   rfl, rfl⟩

/-- Two-byte ROM used as a loading witness. -/
def romW : List Nat := [0xAB, 0xCD]

/-- C9 witness: loading the two-byte ROM puts its second byte at 0x201
    past the base and leaves address 0 alone. -/
theorem load_rom_witness :
    (load_rom romW cpu0).memory ⟨513, by norm_num⟩ = 0xCD ∧
    (load_rom romW cpu0).memory ⟨0, by norm_num⟩ = cpu0.memory ⟨0, by norm_num⟩ := by
  constructor
  · have h := (load_rom_spec romW cpu0).1 1 (by simp [romW]) (by norm_num)
    simpa [romW] using h
  · exact (load_rom_spec romW cpu0).2.1 ⟨0, by norm_num⟩ (by norm_num)

/-- Error kind of the specification's loader interface. -/
inductive LoadError where
  | ProgramTooLarge
deriving DecidableEq

/-- Modelled from the spec: the specification's loader interface is
    `load_program(bytes)`, which "writes bytes into memory starting at
    0x200" and fails with **ProgramTooLarge** when the bytes exceed
    `4096 - 0x200 = 3584`.  The source's `Cpu::load_rom` instead reads
    a file through one unchecked `read` call into `memory[512..]` and
    has no failing path, so the error behavior exists only in the
    spec; this definition realizes the spec's words for comparison. -/
def load_program_spec (bytes : List Nat) (c : Cpu) : Except LoadError Cpu :=
  if 3584 < bytes.length then Except.error LoadError.ProgramTooLarge
  else Except.ok { c with memory := writeBytes bytes 512 c.memory }

/-- ROM one byte past the capacity. -/
def bigRom : List Nat := List.replicate 3585 7

/-- Memory after `load_rom`, stated generically so concrete ROMs never
    get unfolded during unification. -/
theorem load_rom_memory (bytes : List Nat) (c : Cpu) :
    (load_rom bytes c).memory = writeBytes bytes 512 c.memory := rfl

/-- C9 counterexample: on a 3585-byte ROM the claim (and the spec-
    modelled loader) demand a ProgramTooLarge failure, but the code's
    loader succeeds and performs the (truncated) write — its memory at
    0x200 holds the first ROM byte. -/
theorem load_rom_cex :
    load_program_spec bigRom cpu0 = Except.error LoadError.ProgramTooLarge ∧
    (load_rom bigRom cpu0).memory ⟨512, by norm_num⟩ = 7 := by
  have hlen : bigRom.length = 3585 := by
    unfold bigRom
    exact List.length_replicate _ _
  constructor
  · unfold load_program_spec
    rw [if_pos (by omega)]
  · rw [load_rom_memory]
    have h := writeBytes_get bigRom 512 cpu0.memory 0 (by omega) (by omega)
    have hget : bigRom.get ⟨0, by omega⟩ = 7 := by
      unfold bigRom
      exact List.get_replicate _ _
    exact h.trans hget

/-! ## C7: CALL followed by RET, through tick -/

theorem from_op_a (op : Nat) : (Opcode.from_op op).a = op / 4096 % 16 := by
  show (op >>> 12) &&& 0xf = op / 4096 % 16
  rw [Nat.shiftRight_eq_div_pow]
  have h := Nat.and_pow_two_sub_one_eq_mod (op / 2 ^ 12) 4
  norm_num at h ⊢
  exact h

theorem from_op_x_val (op : Nat) : ((Opcode.from_op op).x : Nat) = op / 256 % 16 := by
  show (op >>> 8) &&& 0xf = op / 256 % 16
  rw [Nat.shiftRight_eq_div_pow]
  have h := Nat.and_pow_two_sub_one_eq_mod (op / 2 ^ 8) 4
  norm_num at h ⊢
  exact h

theorem from_op_y_val (op : Nat) : ((Opcode.from_op op).y : Nat) = op / 16 % 16 := by
  show (op >>> 4) &&& 0xf = op / 16 % 16
  rw [Nat.shiftRight_eq_div_pow]
  have h := Nat.and_pow_two_sub_one_eq_mod (op / 2 ^ 4) 4
  norm_num at h ⊢
  exact h

theorem from_op_n (op : Nat) : (Opcode.from_op op).n = op % 16 := by
  show op &&& 0xf = op % 16
  have h := Nat.and_pow_two_sub_one_eq_mod op 4
  norm_num at h
  exact h

theorem from_op_nnn (op : Nat) : (Opcode.from_op op).nnn = op % 4096 := by
  show op &&& 0xfff = op % 4096
  have h := Nat.and_pow_two_sub_one_eq_mod op 12
  norm_num at h
  exact h

/-- Big-endian composition of two bytes: the `(hi as u16) << 8 | lo`
    of the fetch is ordinary arithmetic when the low byte is in range. -/
theorem fetch_eq (hi lo : Nat) (hlo : lo < 256) : (hi <<< 8) ||| lo = hi * 256 + lo := by
  rw [Nat.shiftLeft_eq]
  have hb : lo < 2 ^ 8 := by norm_num; omega
  have h : 2 ^ 8 * hi + lo = 2 ^ 8 * hi ||| lo := Nat.mul_add_lt_is_or hb hi
  calc hi * 2 ^ 8 ||| lo = 2 ^ 8 * hi ||| lo := by rw [Nat.mul_comm]
    _ = 2 ^ 8 * hi + lo := h.symm
    _ = hi * 256 + lo := by ring

/-- An opcode with leading nibble 2 dispatches to CALL. -/
theorem dispatch_call (rand : Nat) (op : Opcode) (c : Cpu) (ha : op.a = 2) :
    dispatch rand op c = call op.nnn c := by
  unfold dispatch
  rw [if_neg (by rintro ⟨h1, -⟩; omega), if_neg (by rintro ⟨h1, -⟩; omega),
    if_neg (by omega), if_neg (by omega), if_pos ha]

/-- The opcode fields of 00EE dispatch to RET. -/
theorem dispatch_ret (rand : Nat) (op : Opcode) (c : Cpu) (ha : op.a = 0)
    (hx : op.x.val = 0) (hy : op.y.val = 14) (hn : op.n = 14) :
    dispatch rand op c = ret c := by
  unfold dispatch
  rw [if_neg (by rintro ⟨-, -, -, h⟩; omega), if_pos ⟨ha, hx, hy, hn⟩]

/-- CALL on a state with `sp < 15`: push the current `pc`, jump. -/
theorem call_spec (nnn : Nat) (c : Cpu) (hsp : c.sp < 15) :
    call nnn c = some { c with
      sp := (c.sp + 1) % 256,
      stack := Function.update c.stack ⟨(c.sp + 1) % 256, by omega⟩ c.pc,
      pc := nnn } := by
  simp only [call]
  rw [dif_pos (by omega : (c.sp + 1) % 256 < 16)]

/-- RET on a state with `0 < sp < 16`: pop. -/
theorem ret_spec (c : Cpu) (hsp0 : c.sp ≠ 0) (hsp16 : c.sp < 16) :
    ret c = some { c with pc := c.stack ⟨c.sp, hsp16⟩, sp := c.sp - 1 } := by
  unfold ret
  rw [if_neg hsp0, dif_pos hsp16]

/-- A non-waiting tick with both fetch reads resolved. -/
theorem tickExec_run (rand : Nat) (c : Cpu) (hw : c.waiting = none) (hi lo : Nat)
    (hm0 : memRead c.memory c.pc = some hi)
    (hm1 : memRead c.memory (c.pc + 1) = some lo) :
    tickExec rand c = processOpcode rand ((hi <<< 8) ||| lo)
      { c with hasDispUpdate := false, pc := (c.pc + 2) % 65536 } := by
  unfold tickExec
  rw [if_pos hw, hm0, hm1]

/-- Unfold one tick once the instruction phase is resolved. -/
theorem tick_run (rand : Nat) (c c1 : Cpu) (h : tickExec rand c = some c1) :
    tick rand c =
      some { tickTimers c1 with cycleCount := (tickTimers c1).cycleCount + 1 } := by
  unfold tick
  rw [h]
  rfl

theorem tickTimers_pc (c : Cpu) : (tickTimers c).pc = c.pc := by
  unfold tickTimers
  split_ifs <;> rfl

theorem tickTimers_sp (c : Cpu) : (tickTimers c).sp = c.sp := by
  unfold tickTimers
  split_ifs <;> rfl

theorem tickTimers_stack (c : Cpu) : (tickTimers c).stack = c.stack := by
  unfold tickTimers
  split_ifs <;> rfl

theorem tickTimers_memory (c : Cpu) : (tickTimers c).memory = c.memory := by
  unfold tickTimers
  split_ifs <;> rfl

theorem tickTimers_waiting (c : Cpu) : (tickTimers c).waiting = c.waiting := by
  unfold tickTimers
  split_ifs <;> rfl

/-- One tick, with the control-flow fields carried through the timer
    phase. -/
theorem tick_full (rand : Nat) (c c1 : Cpu) (h : tickExec rand c = some c1) :
    ∃ c', tick rand c = some c' ∧ c'.pc = c1.pc ∧ c'.sp = c1.sp ∧ c'.stack = c1.stack ∧
      c'.memory = c1.memory ∧ c'.waiting = c1.waiting :=
  ⟨_, tick_run rand c c1 h, tickTimers_pc c1, tickTimers_sp c1, tickTimers_stack c1,
    tickTimers_memory c1, tickTimers_waiting c1⟩

/-- RET with its observable effect on `pc` and `sp`. -/
theorem ret_proj (c : Cpu) (hsp0 : c.sp ≠ 0) (hsp16 : c.sp < 16) :
    ∃ c', ret c = some c' ∧ c'.pc = c.stack ⟨c.sp, hsp16⟩ ∧ c'.sp = c.sp - 1 :=
  ⟨_, ret_spec c hsp0 hsp16, rfl, rfl⟩

set_option maxHeartbeats 1600000 in
/-- C7: from a non-waiting state with `SP < 15` whose next instruction
    is `CALL nnn` and where `memory[nnn]` holds `RET`, two ticks leave
    `PC` at the address after the CALL and restore `SP`. -/
theorem call_ret_roundtrip (r1 r2 nnn : Nat) (c : Cpu)
    (hw : c.waiting = none) (hsp : c.sp < 15) (hpc : c.pc + 1 < 4096)
    (hnnn : nnn < 4096) (hnnn1 : nnn + 1 < 4096)
    (hm0 : memRead c.memory c.pc = some (0x20 + nnn / 256))
    (hm1 : memRead c.memory (c.pc + 1) = some (nnn % 256))
    (hm2 : memRead c.memory nnn = some 0x00)
    (hm3 : memRead c.memory (nnn + 1) = some 0xEE) :
    ∃ c1 c2, tick r1 c = some c1 ∧ tick r2 c1 = some c2 ∧
      c2.pc = c.pc + 2 ∧ c2.sp = c.sp := by
  have hspmod : (c.sp + 1) % 256 = c.sp + 1 := Nat.mod_eq_of_lt (by omega)
  have hpcadv : (c.pc + 2) % 65536 = c.pc + 2 := Nat.mod_eq_of_lt (by omega)
  have hexec1 : tickExec r1 c =
      call nnn { c with hasDispUpdate := false, pc := (c.pc + 2) % 65536 } := by
    rw [tickExec_run r1 c hw _ _ hm0 hm1]
    rw [show ((0x20 + nnn / 256) <<< 8) ||| (nnn % 256) = 0x2000 + nnn from by
      rw [fetch_eq _ _ (by omega)]; omega]
    unfold processOpcode
    rw [dispatch_call _ _ _ (by rw [from_op_a]; omega), from_op_nnn,
      show (0x2000 + nnn) % 4096 = nnn from by omega]
  have hcall : tickExec r1 c =
      some { c with hasDispUpdate := false,
                    sp := (c.sp + 1) % 256,
                    stack := Function.update c.stack ⟨(c.sp + 1) % 256, by omega⟩
                      ((c.pc + 2) % 65536),
                    pc := nnn } := by
    rw [hexec1,
      call_spec nnn { c with hasDispUpdate := false, pc := (c.pc + 2) % 65536 } hsp]
  obtain ⟨c1, htick1, h1pc, h1sp, h1stack, h1mem, h1wait⟩ := tick_full r1 c _ hcall
  have e1pc : c1.pc = nnn := h1pc
  have e1sp : c1.sp = (c.sp + 1) % 256 := h1sp
  have e1stack : c1.stack =
      Function.update c.stack ⟨(c.sp + 1) % 256, by omega⟩ ((c.pc + 2) % 65536) := h1stack
  have e1mem : c1.memory = c.memory := h1mem
  have e1wait : c1.waiting = none := h1wait.trans hw
  have hexec2 : tickExec r2 c1 =
      ret { c1 with hasDispUpdate := false, pc := (c1.pc + 2) % 65536 } := by
    rw [tickExec_run r2 c1 e1wait 0x00 0xEE
      (by rw [e1mem, e1pc]; exact hm2)
      (by rw [e1mem, e1pc]; exact hm3)]
    rw [show ((0x00 <<< 8) ||| 0xEE : Nat) = 0xEE from by decide]
    unfold processOpcode
    rw [dispatch_ret _ _ _ (by decide) (by decide) (by decide) (by decide)]
  have he2sp : ({ c1 with hasDispUpdate := false, pc := (c1.pc + 2) % 65536 } : Cpu).sp
      = c.sp + 1 := by
    show c1.sp = c.sp + 1
    rw [e1sp, hspmod]
  obtain ⟨cr, hretEq, hrpc, hrsp⟩ :=
    ret_proj { c1 with hasDispUpdate := false, pc := (c1.pc + 2) % 65536 }
      (by omega) (by omega)
  have hrpc' : cr.pc = c.pc + 2 := by
    rw [hrpc]
    show c1.stack ⟨c1.sp, _⟩ = c.pc + 2
    rw [e1stack,
      show (⟨c1.sp, by omega⟩ : Fin 16) = ⟨(c.sp + 1) % 256, by omega⟩ from
        Fin.ext e1sp,
      Function.update_same, hpcadv]
  have hrsp' : cr.sp = c.sp := by
    rw [hrsp]
    show c1.sp - 1 = c.sp
    rw [e1sp, hspmod]
    omega
  have hexec2' : tickExec r2 c1 = some cr := hexec2.trans hretEq
  obtain ⟨c2, htick2, h2pc, h2sp, _, _, _⟩ := tick_full r2 c1 cr hexec2'
  exact ⟨c1, c2, htick1, htick2, h2pc.trans hrpc', h2sp.trans hrsp'⟩

/-- Program with `CALL 0x206` at 0x200 and `RET` at 0x206. -/
def wCpu7 : Cpu :=
  { cpu0 with memory := fun a =>
      if a.val = 512 then 0x22
      else if a.val = 513 then 0x06
      else if a.val = 0x206 then 0x00
      else if a.val = 0x207 then 0xEE
      else 0 }

/-- C7 witness: on the concrete CALL/RET program, two ticks land `PC`
    at 0x202 and restore `SP` to 0. -/
theorem call_ret_witness :
    ∃ c1 c2, tick 0 wCpu7 = some c1 ∧ tick 0 c1 = some c2 ∧
      c2.pc = wCpu7.pc + 2 ∧ c2.sp = wCpu7.sp :=
  call_ret_roundtrip 0 0 0x206 wCpu7 rfl (by decide) (by decide) (by decide) (by decide)
    (by decide) (by decide) (by decide) (by decide)

/-! ## C5: the sprite blit -/

/-- Sprite byte of row `i`, as the blit fetches it. -/
def spriteAt (mem : Fin 4096 → Nat) (iReg i : Nat) : Nat :=
  (memRead mem (iReg + i)).getD 0

/-- Specification-side mask of one sprite row: whether column `cl` is
    toggled by one of the row's bits with index in `[j, j + rem)`. -/
def rowMask (vx sprite : Nat) : Nat → Nat → Fin 64 → Bool
  | 0, _, _ => false
  | rem + 1, j, cl =>
    (decide (cl.val = (vx + j) % 64) && decide ((sprite >>> (7 - j)) &&& 1 = 1)) ||
      rowMask vx sprite rem (j + 1) cl

/-- Specification-side collision of one sprite row against a display
    row `d`, over bit indices in `[j, j + rem)`. -/
def rowColl (vx sprite : Nat) (d : Fin 64 → Bool) : Nat → Nat → Bool
  | 0, _ => false
  | rem + 1, j =>
    (decide ((sprite >>> (7 - j)) &&& 1 = 1) && d (colOf vx j)) ||
      rowColl vx sprite d rem (j + 1)

/-- Specification-side sprite bit at display pixel `(r, cl)`, over
    sprite rows with index in `[i, i + rem)`. -/
def mainMask (vx vy iReg : Nat) (mem : Fin 4096 → Nat) :
    Nat → Nat → Fin 32 → Fin 64 → Bool
  | 0, _, _, _ => false
  | rem + 1, i, r, cl =>
    (decide (r.val = (vy + i) % 32) && rowMask vx (spriteAt mem iReg i) 8 0 cl) ||
      mainMask vx vy iReg mem rem (i + 1) r cl

/-- Specification-side collision of the whole blit against display `d`,
    over sprite rows with index in `[i, i + rem)`. -/
def mainColl (vx vy iReg : Nat) (mem : Fin 4096 → Nat) (d : Fin 32 → Fin 64 → Bool) :
    Nat → Nat → Bool
  | 0, _ => false
  | rem + 1, i =>
    rowColl vx (spriteAt mem iReg i) (d (rowOf vy i)) 8 0 ||
      mainColl vx vy iReg mem d rem (i + 1)

theorem togglePixel_apply (d : Fin 32 → Fin 64 → Bool) (r0 : Fin 32) (cl0 : Fin 64)
    (r : Fin 32) (cl : Fin 64) :
    togglePixel d r0 cl0 r cl = if r = r0 ∧ cl = cl0 then !(d r cl) else d r cl := by
  unfold togglePixel
  by_cases hr : r = r0
  · subst hr
    rw [Function.update_same]
    by_cases hcl : cl = cl0
    · subst hcl
      rw [Function.update_same, if_pos ⟨rfl, rfl⟩]
    · rw [Function.update_noteq hcl, if_neg (by tauto)]
  · rw [Function.update_noteq hr, if_neg (by tauto)]

theorem drwPix_frame (xr : Fin 16) (iOff : Fin 32) (sprite j : Nat) (c : Cpu) :
    (drwPix xr iOff sprite j c).i = c.i ∧
    (drwPix xr iOff sprite j c).memory = c.memory ∧
    (drwPix xr iOff sprite j c).pc = c.pc ∧
    (drwPix xr iOff sprite j c).hasDispUpdate = c.hasDispUpdate ∧
    (drwPix xr iOff sprite j c).waiting = c.waiting := by
  simp only [drwPix]
  split_ifs <;> exact ⟨rfl, rfl, rfl, rfl, rfl⟩

theorem drwPix_v (xr : Fin 16) (iOff : Fin 32) (sprite j : Nat) (c : Cpu) :
    (drwPix xr iOff sprite j c).v =
      if (sprite >>> (7 - j)) &&& 1 = 1 ∧ c.display iOff (colOf (c.v xr) j) = true
      then Function.update c.v 15 1 else c.v := by
  simp only [drwPix]
  split_ifs <;> first | rfl | tauto

theorem drwPix_display (xr : Fin 16) (iOff : Fin 32) (sprite j : Nat) (c : Cpu)
    (r : Fin 32) (cl : Fin 64) :
    (drwPix xr iOff sprite j c).display r cl =
      if (sprite >>> (7 - j)) &&& 1 = 1 ∧ r = iOff ∧ cl = colOf (c.v xr) j
      then !(c.display r cl) else c.display r cl := by
  simp only [drwPix]
  by_cases h1 : (sprite >>> (7 - j)) &&& 1 = 1
  · rw [if_pos h1]
    by_cases h2 : c.display iOff (colOf (c.v xr) j) = true
    · rw [if_pos h2]
      show togglePixel c.display iOff (colOf (c.v xr) j) r cl = _
      rw [togglePixel_apply]
      by_cases hrc : r = iOff ∧ cl = colOf (c.v xr) j
      · rw [if_pos hrc, if_pos ⟨h1, hrc.1, hrc.2⟩]
      · rw [if_neg hrc, if_neg (by tauto)]
    · rw [if_neg h2]
      show togglePixel c.display iOff (colOf (c.v xr) j) r cl = _
      rw [togglePixel_apply]
      by_cases hrc : r = iOff ∧ cl = colOf (c.v xr) j
      · rw [if_pos hrc, if_pos ⟨h1, hrc.1, hrc.2⟩]
      · rw [if_neg hrc, if_neg (by tauto)]
  · rw [if_neg h1, if_neg (by tauto)]

theorem rowColl_congr (vx sprite : Nat) :
    ∀ (rem j : Nat) (d1 d2 : Fin 64 → Bool),
      (∀ jj, j ≤ jj → jj < j + rem → d1 (colOf vx jj) = d2 (colOf vx jj)) →
      rowColl vx sprite d1 rem j = rowColl vx sprite d2 rem j
  | 0, _, _, _, _ => rfl
  | rem + 1, j, d1, d2, hd => by
    simp only [rowColl]
    rw [hd j (le_refl j) (by omega),
      rowColl_congr vx sprite rem (j + 1) d1 d2 (fun jj h1 h2 => hd jj (by omega) (by omega))]

theorem rowMask_val (vx sprite : Nat) :
    ∀ (rem j : Nat) (cl : Fin 64), rowMask vx sprite rem j cl = true →
      ∃ jj, j ≤ jj ∧ jj < j + rem ∧ cl.val = (vx + jj) % 64
  | 0, j, cl, h => by simp [rowMask] at h
  | rem + 1, j, cl, h => by
    simp only [rowMask, Bool.or_eq_true, Bool.and_eq_true, decide_eq_true_eq] at h
    rcases h with ⟨h1, _⟩ | h
    · exact ⟨j, le_refl j, by omega, h1⟩
    · obtain ⟨jj, hj1, hj2, hj3⟩ := rowMask_val vx sprite rem (j + 1) cl h
      exact ⟨jj, by omega, by omega, hj3⟩

theorem drwRowAux_spec (xr : Fin 16) (hx : xr ≠ 15) (iOff : Fin 32) (sprite : Nat) :
    ∀ (rem j : Nat) (c : Cpu), j + rem ≤ 8 →
      (drwRowAux xr iOff sprite rem j c).v =
        (if rowColl (c.v xr) sprite (c.display iOff) rem j = true
         then Function.update c.v 15 1 else c.v) ∧
      (∀ (r : Fin 32) (cl : Fin 64), (drwRowAux xr iOff sprite rem j c).display r cl =
        (if r = iOff then xor (c.display r cl) (rowMask (c.v xr) sprite rem j cl)
         else c.display r cl)) ∧
      (drwRowAux xr iOff sprite rem j c).i = c.i ∧
      (drwRowAux xr iOff sprite rem j c).memory = c.memory ∧
      (drwRowAux xr iOff sprite rem j c).pc = c.pc ∧
      (drwRowAux xr iOff sprite rem j c).hasDispUpdate = c.hasDispUpdate ∧
      (drwRowAux xr iOff sprite rem j c).waiting = c.waiting
  | 0, j, c, _ => by
    refine ⟨?_, ?_, rfl, rfl, rfl, rfl, rfl⟩
    · show c.v = if rowColl (c.v xr) sprite (c.display iOff) 0 j = true
        then Function.update c.v 15 1 else c.v
      rw [if_neg (by simp [rowColl])]
    · intro r cl
      show c.display r cl = if r = iOff
        then xor (c.display r cl) (rowMask (c.v xr) sprite 0 j cl) else c.display r cl
      by_cases hr : r = iOff
      · rw [if_pos hr, show rowMask (c.v xr) sprite 0 j cl = false from rfl,
          Bool.xor_false]
      · rw [if_neg hr]
  | rem + 1, j, c, hle => by
    have hpv := drwPix_v xr iOff sprite j c
    have hpd := drwPix_display xr iOff sprite j c
    have hpf := drwPix_frame xr iOff sprite j c
    have hvx : (drwPix xr iOff sprite j c).v xr = c.v xr := by
      rw [hpv]
      split_ifs
      · exact Function.update_noteq hx 1 c.v
      · rfl
    obtain ⟨ihv, ihd, ihi, ihm, ihp, ihh, ihw⟩ :=
      drwRowAux_spec xr hx iOff sprite rem (j + 1) (drwPix xr iOff sprite j c) (by omega)
    simp only [drwRowAux]
    have hdcong : rowColl (c.v xr) sprite ((drwPix xr iOff sprite j c).display iOff)
        rem (j + 1) = rowColl (c.v xr) sprite (c.display iOff) rem (j + 1) := by
      apply rowColl_congr
      intro jj h1 h2
      rw [hpd iOff (colOf (c.v xr) jj)]
      rw [if_neg ?_]
      rintro ⟨-, -, hcc⟩
      have hvv : (c.v xr + jj) % 64 = (c.v xr + j) % 64 := congrArg Fin.val hcc
      omega
    refine ⟨?_, ?_, ihi.trans hpf.1, ihm.trans hpf.2.1, ihp.trans hpf.2.2.1,
      ihh.trans hpf.2.2.2.1, ihw.trans hpf.2.2.2.2⟩
    · rw [ihv, hvx, hdcong]
      simp only [rowColl]
      rcases Classical.em ((sprite >>> (7 - j)) &&& 1 = 1 ∧
          c.display iOff (colOf (c.v xr) j) = true) with hA | hA <;>
        rcases Classical.em (rowColl (c.v xr) sprite (c.display iOff) rem (j + 1) = true)
          with hB | hB
      · rw [if_pos hB,
          if_pos (show ((decide ((sprite >>> (7 - j)) &&& 1 = 1) &&
              c.display iOff (colOf (c.v xr) j)) ||
            rowColl (c.v xr) sprite (c.display iOff) rem (j + 1)) = true from by
            simp only [Bool.or_eq_true, Bool.and_eq_true, decide_eq_true_eq]; tauto),
          hpv, if_pos hA, Function.update_idem]
      · rw [if_neg hB,
          if_pos (show ((decide ((sprite >>> (7 - j)) &&& 1 = 1) &&
              c.display iOff (colOf (c.v xr) j)) ||
            rowColl (c.v xr) sprite (c.display iOff) rem (j + 1)) = true from by
            simp only [Bool.or_eq_true, Bool.and_eq_true, decide_eq_true_eq]; tauto),
          hpv, if_pos hA]
      · rw [if_pos hB,
          if_pos (show ((decide ((sprite >>> (7 - j)) &&& 1 = 1) &&
              c.display iOff (colOf (c.v xr) j)) ||
            rowColl (c.v xr) sprite (c.display iOff) rem (j + 1)) = true from by
            simp only [Bool.or_eq_true, Bool.and_eq_true, decide_eq_true_eq]; tauto),
          hpv, if_neg hA]
      · rw [if_neg hB,
          if_neg (show ¬ (((decide ((sprite >>> (7 - j)) &&& 1 = 1) &&
              c.display iOff (colOf (c.v xr) j)) ||
            rowColl (c.v xr) sprite (c.display iOff) rem (j + 1)) = true) from by
            simp only [Bool.or_eq_true, Bool.and_eq_true, decide_eq_true_eq]; tauto),
          hpv, if_neg hA]
    · intro r cl
      rw [ihd r cl, hvx]
      by_cases hr : r = iOff
      · subst hr
        rw [if_pos rfl, if_pos rfl, hpd r cl]
        simp only [rowMask]
        by_cases hcl : cl = colOf (c.v xr) j
        · have hclv : cl.val = (c.v xr + j) % 64 := by rw [hcl]; rfl
          by_cases hbit : (sprite >>> (7 - j)) &&& 1 = 1
          · have hrest : rowMask (c.v xr) sprite rem (j + 1) cl = false := by
              rcases hmr : rowMask (c.v xr) sprite rem (j + 1) cl with _ | _
              · rfl
              · obtain ⟨jj, hj1, hj2, hj3⟩ := rowMask_val (c.v xr) sprite rem (j + 1) cl hmr
                omega
            rw [hrest, if_pos ⟨hbit, True.intro, hcl⟩, decide_eq_true hclv,
              decide_eq_true hbit]
            simp
          · rw [if_neg (by tauto), decide_eq_false hbit]
            simp
        · have hclv : ¬(cl.val = (c.v xr + j) % 64) := fun h => hcl (Fin.ext h)
          rw [if_neg (by tauto)]
          simp [hclv]
      · rw [if_neg hr, if_neg hr, hpd r cl, if_neg (by tauto)]

theorem mainColl_congr (vx vy iReg : Nat) (mem : Fin 4096 → Nat) :
    ∀ (rem i : Nat) (d1 d2 : Fin 32 → Fin 64 → Bool),
      (∀ t, i ≤ t → t < i + rem → d1 (rowOf vy t) = d2 (rowOf vy t)) →
      mainColl vx vy iReg mem d1 rem i = mainColl vx vy iReg mem d2 rem i
  | 0, _, _, _, _ => rfl
  | rem + 1, i, d1, d2, hd => by
    simp only [mainColl]
    rw [hd i (le_refl i) (by omega),
      mainColl_congr vx vy iReg mem rem (i + 1) d1 d2
        (fun t h1 h2 => hd t (by omega) (by omega))]

theorem mainMask_row (vx vy iReg : Nat) (mem : Fin 4096 → Nat) :
    ∀ (rem i : Nat) (r : Fin 32) (cl : Fin 64),
      mainMask vx vy iReg mem rem i r cl = true →
      ∃ t, i ≤ t ∧ t < i + rem ∧ r.val = (vy + t) % 32
  | 0, i, r, cl, h => by simp [mainMask] at h
  | rem + 1, i, r, cl, h => by
    simp only [mainMask, Bool.or_eq_true, Bool.and_eq_true, decide_eq_true_eq] at h
    rcases h with ⟨h1, _⟩ | h
    · exact ⟨i, le_refl i, by omega, h1⟩
    · obtain ⟨t, ht1, ht2, ht3⟩ := mainMask_row vx vy iReg mem rem (i + 1) r cl h
      exact ⟨t, by omega, by omega, ht3⟩

theorem spriteAt_eq (mem : Fin 4096 → Nat) (iReg i : Nat) (s : Nat)
    (h : memRead mem (iReg + i) = some s) : spriteAt mem iReg i = s := by
  unfold spriteAt
  rw [h]
  rfl

theorem drwMainAux_spec (xr yr : Fin 16) (hx : xr ≠ 15) (hy : yr ≠ 15) :
    ∀ (rem i : Nat) (c : Cpu), i + rem ≤ 32 →
      (∀ t, t < rem → c.i + (i + t) < 4096) →
      ∃ c2, drwMainAux xr yr rem i c = some c2 ∧
        c2.v = (if mainColl (c.v xr) (c.v yr) c.i c.memory c.display rem i = true
                then Function.update c.v 15 1 else c.v) ∧
        (∀ (r : Fin 32) (cl : Fin 64), c2.display r cl =
          xor (c.display r cl) (mainMask (c.v xr) (c.v yr) c.i c.memory rem i r cl)) ∧
        c2.i = c.i ∧ c2.memory = c.memory ∧ c2.hasDispUpdate = c.hasDispUpdate
  | 0, i, c, _, _ => by
    refine ⟨c, rfl, ?_, ?_, rfl, rfl, rfl⟩
    · rw [if_neg (by simp [mainColl])]
    · intro r cl
      rw [show mainMask (c.v xr) (c.v yr) c.i c.memory 0 i r cl = false from rfl,
        Bool.xor_false]
  | rem + 1, i, c, hle, hbd => by
    have hbound : c.i + i < 4096 := by
      have := hbd 0 (by omega)
      omega
    have hmr : memRead c.memory (c.i + i) = some (c.memory ⟨c.i + i, hbound⟩) := by
      unfold memRead
      rw [dif_pos hbound]
    have hsp : spriteAt c.memory c.i i = c.memory ⟨c.i + i, hbound⟩ :=
      spriteAt_eq _ _ _ _ hmr
    obtain ⟨rv, rd, ri, rm, rp, rh, rw_⟩ := drwRowAux_spec xr hx (rowOf (c.v yr) i)
      (c.memory ⟨c.i + i, hbound⟩) 8 0 c (by omega)
    generalize hc1def : drwRowAux xr (rowOf (c.v yr) i) (c.memory ⟨c.i + i, hbound⟩) 8 0 c
      = c1 at rv rd ri rm rp rh rw_
    have hc1vx : c1.v xr = c.v xr := by
      rw [rv]
      split_ifs
      · exact Function.update_noteq hx 1 c.v
      · rfl
    have hc1vy : c1.v yr = c.v yr := by
      rw [rv]
      split_ifs
      · exact Function.update_noteq hy 1 c.v
      · rfl
    obtain ⟨c2, hrec, ihv, ihd, ihi, ihm, ihh⟩ :=
      drwMainAux_spec xr yr hx hy rem (i + 1) c1 (by omega)
        (fun t ht => by
          rw [ri]
          have := hbd (t + 1) (by omega)
          omega)
    refine ⟨c2, ?_, ?_, ?_, ihi.trans ri, ihm.trans rm, ihh.trans rh⟩
    · simp only [drwMainAux]
      rw [hmr]
      show drwMainAux xr yr rem (i + 1)
        (drwRowAux xr (rowOf (c.v yr) i) (c.memory ⟨c.i + i, hbound⟩) 8 0 c) = some c2
      rw [hc1def]
      exact hrec
    · rw [ihv, hc1vx, hc1vy, ri, rm]
      have hdisp_cong : mainColl (c.v xr) (c.v yr) c.i c.memory c1.display rem (i + 1) =
          mainColl (c.v xr) (c.v yr) c.i c.memory c.display rem (i + 1) := by
        apply mainColl_congr
        intro t h1 h2
        funext cl
        rw [rd (rowOf (c.v yr) t) cl, if_neg ?_]
        intro hcc
        have hvv : (c.v yr + t) % 32 = (c.v yr + i) % 32 := congrArg Fin.val hcc
        omega
      rw [hdisp_cong]
      simp only [mainColl]
      simp only [hsp]
      rcases Classical.em (rowColl (c.v xr) (c.memory ⟨c.i + i, hbound⟩)
          (c.display (rowOf (c.v yr) i)) 8 0 = true) with hA | hA <;>
        rcases Classical.em (mainColl (c.v xr) (c.v yr) c.i c.memory c.display
          rem (i + 1) = true) with hB | hB
      · rw [if_pos hB,
          if_pos (show (rowColl (c.v xr) (c.memory ⟨c.i + i, hbound⟩)
              (c.display (rowOf (c.v yr) i)) 8 0 ||
            mainColl (c.v xr) (c.v yr) c.i c.memory c.display rem (i + 1)) = true from by
            simp only [Bool.or_eq_true]
            tauto),
          rv, if_pos hA, Function.update_idem]
      · rw [if_neg hB,
          if_pos (show (rowColl (c.v xr) (c.memory ⟨c.i + i, hbound⟩)
              (c.display (rowOf (c.v yr) i)) 8 0 ||
            mainColl (c.v xr) (c.v yr) c.i c.memory c.display rem (i + 1)) = true from by
            simp only [Bool.or_eq_true]
            tauto),
          rv, if_pos hA]
      · rw [if_pos hB,
          if_pos (show (rowColl (c.v xr) (c.memory ⟨c.i + i, hbound⟩)
              (c.display (rowOf (c.v yr) i)) 8 0 ||
            mainColl (c.v xr) (c.v yr) c.i c.memory c.display rem (i + 1)) = true from by
            simp only [Bool.or_eq_true]
            tauto),
          rv, if_neg hA]
      · rw [if_neg hB,
          if_neg (show ¬ ((rowColl (c.v xr) (c.memory ⟨c.i + i, hbound⟩)
              (c.display (rowOf (c.v yr) i)) 8 0 ||
            mainColl (c.v xr) (c.v yr) c.i c.memory c.display rem (i + 1)) = true) from by
            simp only [Bool.or_eq_true]
            tauto),
          rv, if_neg hA]
    · intro r cl
      rw [ihd r cl, hc1vx, hc1vy, ri, rm, rd r cl]
      simp only [mainMask]
      simp only [hsp]
      by_cases hr : r = rowOf (c.v yr) i
      · have hrv : r.val = (c.v yr + i) % 32 := by rw [hr]; rfl
        rw [if_pos hr, decide_eq_true hrv, Bool.true_and]
        rcases hrm : rowMask (c.v xr) (c.memory ⟨c.i + i, hbound⟩) 8 0 cl with _ | _
        · simp
        · have hrest : mainMask (c.v xr) (c.v yr) c.i c.memory rem (i + 1) r cl = false := by
            rcases hmm2 : mainMask (c.v xr) (c.v yr) c.i c.memory rem (i + 1) r cl with _ | _
            · rfl
            · obtain ⟨t, ht1, ht2, ht3⟩ := mainMask_row _ _ _ _ rem (i + 1) r cl hmm2
              omega
          rw [hrest]
          simp
      · have hrv : ¬(r.val = (c.v yr + i) % 32) := fun h => hr (Fin.ext h)
        rw [if_neg hr, decide_eq_false hrv, Bool.false_and, Bool.false_or]

theorem rowColl_iff (vx sprite : Nat) (d : Fin 64 → Bool) :
    ∀ (rem j : Nat), rowColl vx sprite d rem j = true ↔
      ∃ cl : Fin 64, d cl = true ∧ rowMask vx sprite rem j cl = true
  | 0, j => by simp [rowColl, rowMask]
  | rem + 1, j => by
    simp only [rowColl, rowMask, Bool.or_eq_true, Bool.and_eq_true, decide_eq_true_eq]
    constructor
    · rintro (⟨hbit, hd⟩ | hrest)
      · exact ⟨colOf vx j, hd, Or.inl ⟨rfl, hbit⟩⟩
      · obtain ⟨cl, hcl, hm⟩ := (rowColl_iff vx sprite d rem (j + 1)).mp hrest
        exact ⟨cl, hcl, Or.inr hm⟩
    · rintro ⟨cl, hcl, (⟨hv, hbit⟩ | hm)⟩
      · left
        refine ⟨hbit, ?_⟩
        have hcc : cl = colOf vx j := Fin.ext hv
        rw [← hcc]
        exact hcl
      · right
        exact (rowColl_iff vx sprite d rem (j + 1)).mpr ⟨cl, hcl, hm⟩

theorem mainColl_iff (vx vy iReg : Nat) (mem : Fin 4096 → Nat)
    (d : Fin 32 → Fin 64 → Bool) :
    ∀ (rem i : Nat), mainColl vx vy iReg mem d rem i = true ↔
      ∃ (r : Fin 32) (cl : Fin 64), d r cl = true ∧
        mainMask vx vy iReg mem rem i r cl = true
  | 0, i => by simp [mainColl, mainMask]
  | rem + 1, i => by
    simp only [mainColl, mainMask, Bool.or_eq_true, Bool.and_eq_true, decide_eq_true_eq]
    constructor
    · rintro (hrow | hrest)
      · obtain ⟨cl, hcl, hm⟩ := (rowColl_iff _ _ _ 8 0).mp hrow
        exact ⟨rowOf vy i, cl, hcl, Or.inl ⟨rfl, hm⟩⟩
      · obtain ⟨r, cl, hd, hm⟩ := (mainColl_iff vx vy iReg mem d rem (i + 1)).mp hrest
        exact ⟨r, cl, hd, Or.inr hm⟩
    · rintro ⟨r, cl, hd, (⟨hrv, hm⟩ | hm)⟩
      · left
        apply (rowColl_iff _ _ _ 8 0).mpr
        refine ⟨cl, ?_, hm⟩
        have hrr : r = rowOf vy i := Fin.ext hrv
        rw [← hrr]
        exact hd
      · right
        exact (mainColl_iff vx vy iReg mem d rem (i + 1)).mpr ⟨r, cl, hd, hm⟩

/-- C5 (amended): for coordinate registers other than `VF` (`x ≠ 0xF`,
    `y ≠ 0xF`), a DRW blit whose sprite bytes are all readable first
    sets `VF` to 0, then XORs every display pixel with its sprite bit
    (row taken mod 32, column mod 64, both relative to the pre-state
    `V[x]`, `V[y]`), ends with `VF = 1` iff some pixel had pre-state 1
    and sprite bit 1, leaves the other registers alone, and sets the
    dirty flag even when `n = 0`. -/
theorem drw_spec (xr yr : Fin 16) (hx : xr ≠ 15) (hy : yr ≠ 15) (n : Nat) (hn : n ≤ 32)
    (c : Cpu) (hbound : ∀ t, t < n → c.i + t < 4096) :
    ∃ c', drw xr yr n c = some c' ∧
      (∀ (r : Fin 32) (cl : Fin 64), c'.display r cl =
        xor (c.display r cl) (mainMask (c.v xr) (c.v yr) c.i c.memory n 0 r cl)) ∧
      c'.v 15 = (if ∃ (r : Fin 32) (cl : Fin 64), c.display r cl = true ∧
          mainMask (c.v xr) (c.v yr) c.i c.memory n 0 r cl = true then 1 else 0) ∧
      (∀ idx : Fin 16, idx ≠ 15 → c'.v idx = c.v idx) ∧
      c'.hasDispUpdate = true := by
  have hvx0 : ({ c with v := Function.update c.v 15 0 } : Cpu).v xr = c.v xr :=
    Function.update_noteq hx 0 c.v
  have hvy0 : ({ c with v := Function.update c.v 15 0 } : Cpu).v yr = c.v yr :=
    Function.update_noteq hy 0 c.v
  obtain ⟨c2, hmain, hv, hdisp, _, _, _⟩ :=
    drwMainAux_spec xr yr hx hy n 0 { c with v := Function.update c.v 15 0 }
      (by omega)
      (fun t ht => by
        show c.i + (0 + t) < 4096
        have := hbound t ht
        omega)
  refine ⟨{ c2 with hasDispUpdate := true }, ?_, ?_, ?_, ?_, rfl⟩
  · unfold drw
    rw [hmain]
    rfl
  · intro r cl
    show c2.display r cl = _
    rw [hdisp r cl, hvx0, hvy0]
  · show c2.v 15 = _
    rw [hv, hvx0, hvy0]
    show (if mainColl (c.v xr) (c.v yr) c.i c.memory c.display n 0 = true
        then Function.update (Function.update c.v 15 0) 15 1
        else Function.update c.v 15 0) 15 = _
    by_cases hcoll : mainColl (c.v xr) (c.v yr) c.i c.memory c.display n 0 = true
    · rw [if_pos hcoll,
        if_pos ((mainColl_iff (c.v xr) (c.v yr) c.i c.memory c.display n 0).mp hcoll),
        Function.update_same]
    · rw [if_neg hcoll,
        if_neg (fun hex => hcoll
          ((mainColl_iff (c.v xr) (c.v yr) c.i c.memory c.display n 0).mpr hex)),
        Function.update_same]
  · intro idx hidx
    show c2.v idx = c.v idx
    rw [hv]
    split_ifs
    · show Function.update (Function.update c.v 15 0) 15 1 idx = c.v idx
      rw [Function.update_noteq hidx, Function.update_noteq hidx]
    · show Function.update c.v 15 0 idx = c.v idx
      rw [Function.update_noteq hidx]

/-- State with a one-pixel sprite (byte 0x80) at `I = 0`. -/
def wCpu5 : Cpu := { cpu0 with memory := Function.update cpu0.memory 0 0x80 }

/-- C5 witness: blitting the one-pixel sprite at the origin on a clean
    display lights pixel (0,0), reports no collision and sets the dirty
    flag. -/
theorem drw_spec_witness :
    ∃ c', drw 0 1 1 wCpu5 = some c' ∧ c'.display 0 0 = true ∧ c'.v 15 = 0 ∧
      c'.hasDispUpdate = true := by
  obtain ⟨c', hdrw, hdisp, hvf, _, hdirty⟩ :=
    drw_spec 0 1 (by decide) (by decide) 1 (by omega) wCpu5
      (fun t ht => by
        show (0 : Nat) + t < 4096
        omega)
  refine ⟨c', hdrw, ?_, ?_, hdirty⟩
  · rw [hdisp 0 0]
    decide
  · rw [hvf]
    decide

/-- State with `V[F] = 1` and the one-pixel sprite at `I = 0`: the blit
    coordinate register is `VF` itself. -/
def cexC5 : Cpu := { cpu0 with
  v := Function.update cpu0.v 15 1,
  memory := Function.update cpu0.memory 0 0x80 }

/-- C5 counterexample: executing `DRW VF, V0, 1` from `cexC5` draws at
    column 0, because `VF` is cleared before the coordinate is read;
    the claim demands the pixel at column `V[F] = 1` to be toggled
    (its pre-state XOR sprite bit is true), but the code leaves it
    false and lights column 0 instead. -/
theorem drw_cex :
    (drw 15 0 1 cexC5).map (fun c => (c.display 0 0, c.display 0 1)) = some (true, false) ∧
    xor (cexC5.display 0 1)
      (mainMask (cexC5.v 15) (cexC5.v 0) cexC5.i cexC5.memory 1 0 0 1) = true := by
  constructor
  · decide
  · decide

end Chip8
